import Mathlib

/-!
Shallow embedding of the chain-state cache of simular-core
(src/memdb.rs, src/forkdb.rs, src/db/mod.rs, src/baseevm.rs, src/snapshot.rs,
src/errors.rs) together with the pieces of the revm dependency that those
files rely on (DbAccount, AccountState, AccountInfo, the commit Account
batch entry).

Modelling conventions:
 - addresses, storage-slot indices, storage values, balances, nonces and
   block numbers are modelled as Nat; none of the embedded code performs
   arithmetic on them (they are only stored, compared and returned), so
   the 160/256-bit width is immaterial;
 - bytecode is a list of bytes (List Nat); Bytecode.to_checked and
   Bytecode.original_bytes of revm are inverse re-packagings of the same
   bytes, so both are the identity at this granularity;
 - keccak hashing (Bytecode.hash_slow) is modelled by an injective
   constructor; the constant KECCAK_EMPTY (hash of the empty bytecode) and
   B256::ZERO are separate constructors, so hash_slow [] = keccakEmpty and
   distinct bytecodes have distinct hashes (standard collision-freeness
   assumption);
 - Rust HashMap / BTreeMap fields are association lists with unique keys;
   lookup takes the first match and insertion replaces in place or appends;
 - the tokio-based remote bridge of forkdb.rs is an oracle (structure
   Fetcher): each fetch either yields a value or fails, exactly the
   Result returned by the provider calls.  Fork operations additionally
   return the number of bridge invocations performed by the call, so
   "never fetches again" is a statement about that count.
-/

namespace Simular

/-- 32-byte digests (revm B256).  `keccak c` is the keccak-256 hash of the
nonempty bytecode `c`; `keccakEmpty` is the reserved KECCAK_EMPTY constant
(hash of the empty bytecode); `zero` is B256::ZERO; `raw n` is any other
externally supplied digest. -/
inductive B256 where
  | zero
  | keccakEmpty
  | keccak (code : List Nat)
  | raw (n : Nat)
deriving DecidableEq

/-- revm Bytecode.hash_slow: keccak-256 of the code bytes; the hash of the
empty bytecode is the KECCAK_EMPTY constant. -/
def hash_slow (c : List Nat) : B256 :=
  if c = [] then B256.keccakEmpty else B256.keccak c

/-- Association-list lookup (first match), modelling HashMap::get. -/
def mfind? {κ α : Type} [DecidableEq κ] : List (κ × α) → κ → Option α
  | [], _ => none
  | (k, v) :: rest, key => if k = key then some v else mfind? rest key

/-- Association-list insert-or-replace, modelling HashMap::insert. -/
def minsert {κ α : Type} [DecidableEq κ] : List (κ × α) → κ → α → List (κ × α)
  | [], key, value => [(key, value)]
  | (k, v) :: rest, key, value =>
      if k = key then (k, value) :: rest else (k, v) :: minsert rest key value

/-- HashMap::entry(k).or_default() followed by a mutation `f` of the entry:
apply `f` to the stored value, or to the default `d` if the key is absent,
and store the result. -/
def mupdate {κ α : Type} [DecidableEq κ] (m : List (κ × α)) (k : κ) (d : α) (f : α → α) :
    List (κ × α) :=
  match mfind? m k with
  | some v => minsert m k (f v)
  | none => minsert m k (f d)

/-- revm AccountInfo.  `code` is the optional lazily-materialised bytecode;
note that revm implements PartialEq for AccountInfo by comparing only
balance, nonce and code_hash (the `code` field is excluded) — see
`AccountInfo.partialEq` below. -/
structure AccountInfo where
  balance : Nat
  nonce : Nat
  code_hash : B256
  code : Option (List Nat)
deriving DecidableEq

/-- revm AccountInfo::default(): zero balance, zero nonce, KECCAK_EMPTY
code hash and empty bytecode. -/
def AccountInfo.default : AccountInfo :=
  { balance := 0, nonce := 0, code_hash := B256.keccakEmpty, code := some [] }

/-- revm PartialEq for AccountInfo: balance, nonce and code hash only. -/
def AccountInfo.partialEq (a b : AccountInfo) : Bool :=
  a.balance = b.balance && a.nonce = b.nonce && a.code_hash = b.code_hash

/-- Lift of `AccountInfo.partialEq` to the Option returned by basic. -/
def optInfoEq : Option AccountInfo → Option AccountInfo → Bool
  | none, none => true
  | some a, some b => AccountInfo.partialEq a b
  | _, _ => false

/-- revm AccountState (db::in_memory_db).  `nought` is revm
AccountState::None, the #[default] variant, meaning the EVM did not
interact with the account ("Fresh" in the spec wording). -/
inductive AccountState where
  | notExisting
  | touched
  | storageCleared
  | nought
deriving DecidableEq

/-- revm AccountState::is_storage_cleared: true only for StorageCleared. -/
def AccountState.is_storage_cleared : AccountState → Bool
  | .storageCleared => true
  | _ => false

/-- revm DbAccount: account metadata, cache-state tag and per-slot storage. -/
structure DbAccount where
  info : AccountInfo
  account_state : AccountState
  storage : List (Nat × Nat)
deriving DecidableEq

/-- revm DbAccount::default(): default info, AccountState::None, empty
storage. -/
def DbAccount.default : DbAccount :=
  { info := AccountInfo.default, account_state := AccountState.nought, storage := [] }

/-- revm DbAccount::new_not_existing(). -/
def DbAccount.new_not_existing : DbAccount :=
  { DbAccount.default with account_state := AccountState.notExisting }

/-- revm DbAccount::info(): None when the account is NotExisting, otherwise
a copy of the stored info. -/
def DbAccount.infoOpt (a : DbAccount) : Option AccountInfo :=
  if a.account_state = AccountState.notExisting then none else some a.info

/-- errors.rs DatabaseError. -/
inductive DatabaseError where
  | MissingAccount (a : Nat)
  | MissingCode (h : B256)
  | GetAccount (a : Nat)
  | GetStorage (a : Nat) (i : Nat)
  | GetBlockHash (n : Nat)
deriving DecidableEq

/-- revm EvmStorageSlot as it appears in a commit batch: original and
present value of a slot touched by the transition. -/
structure EvmStorageSlot where
  original_value : Nat
  present_value : Nat
deriving DecidableEq

/-- revm primitives::Account, an entry of the commit batch.  The status
bitflags are modelled by the three Booleans the commit code queries
(is_touched, is_selfdestructed, is_created). -/
structure Account where
  info : AccountInfo
  storage : List (Nat × EvmStorageSlot)
  is_touched : Bool
  is_selfdestructed : Bool
  is_created : Bool
deriving DecidableEq

/-- memdb.rs / forkdb.rs insert_contract (the two copies are textually
identical).  Mutates the passed AccountInfo and the contracts table:
if the account carries nonempty code, recompute the hash when it is
KECCAK_EMPTY and register the code under the hash if absent
(Entry::or_insert_with, which never overwrites); finally a B256::ZERO
hash is normalised to KECCAK_EMPTY.  Returns the updated info and table. -/
def insert_contract (contracts : List (B256 × List Nat)) (account : AccountInfo) :
    AccountInfo × List (B256 × List Nat) :=
  let step : AccountInfo × List (B256 × List Nat) :=
    match account.code with
    | some code =>
        if code = [] then (account, contracts)
        else
          let account :=
            if account.code_hash = B256.keccakEmpty then
              { account with code_hash := hash_slow code }
            else account
          let contracts :=
            match mfind? contracts account.code_hash with
            | some _ => contracts
            | none => minsert contracts account.code_hash code
          (account, contracts)
    | none => (account, contracts)
  let account := step.1
  let account :=
    if account.code_hash = B256.zero then
      { account with code_hash := B256.keccakEmpty }
    else account
  (account, step.2)

/-- memdb.rs InMemoryDb.  Log contents are never inspected or produced by
any of the embedded operations, so the logs field is a bare list of unit
tokens kept for frame statements. -/
structure InMemoryDb where
  accounts : List (Nat × DbAccount)
  contracts : List (B256 × List Nat)
  logs : List Unit
  block_number : Nat
  block_hashes : List (Nat × B256)
deriving DecidableEq

/-- memdb.rs impl Default for InMemoryDb: the two reserved code entries. -/
def InMemoryDb.default : InMemoryDb :=
  { accounts := []
    contracts := [(B256.keccakEmpty, []), (B256.zero, [])]
    logs := []
    block_number := 0
    block_hashes := [] }

namespace InMemoryDb

/-- memdb.rs set_blocknumber. -/
def set_blocknumber (db : InMemoryDb) (num : Nat) : InMemoryDb :=
  { db with block_number := num }

/-- memdb.rs insert_account_info. -/
def insert_account_info (db : InMemoryDb) (address : Nat) (info : AccountInfo) :
    InMemoryDb :=
  let p := insert_contract db.contracts info
  { db with
    contracts := p.2
    accounts := mupdate db.accounts address DbAccount.default (fun a => { a with info := p.1 }) }

/-- memdb.rs insert_account_storage (load_account on a missing address is
the GetAccount error). -/
def insert_account_storage (db : InMemoryDb) (address slot value : Nat) :
    Except DatabaseError InMemoryDb :=
  match mfind? db.accounts address with
  | some acc =>
      Except.ok { db with
        accounts := minsert db.accounts address
          { acc with storage := minsert acc.storage slot value } }
  | none => Except.error (DatabaseError.GetAccount address)

/-- memdb.rs replace_account_storage: wholesale storage replacement, sets
the StorageCleared state. -/
def replace_account_storage (db : InMemoryDb) (address : Nat)
    (storage : List (Nat × Nat)) : Except DatabaseError InMemoryDb :=
  match mfind? db.accounts address with
  | some acc =>
      Except.ok { db with
        accounts := minsert db.accounts address
          { acc with account_state := AccountState.storageCleared, storage := storage } }
  | none => Except.error (DatabaseError.GetAccount address)

/-- memdb.rs Database::basic.  On a miss it inserts a NotExisting sentinel
into the account table (HashMap entry API) and returns its info, i.e.
None.  The Rust return type is Result but this function never errors, so
the Ok wrapper is dropped. -/
def basic (db : InMemoryDb) (address : Nat) : Option AccountInfo × InMemoryDb :=
  match mfind? db.accounts address with
  | some acc => (acc.infoOpt, db)
  | none =>
      (DbAccount.new_not_existing.infoOpt,
       { db with accounts := minsert db.accounts address DbAccount.new_not_existing })

/-- memdb.rs Database::code_by_hash. -/
def code_by_hash (db : InMemoryDb) (h : B256) : Except DatabaseError (List Nat) :=
  match mfind? db.contracts h with
  | some c => Except.ok c
  | none => Except.error (DatabaseError.MissingCode h)

/-- memdb.rs Database::storage: cached slot, else zero for
StorageCleared/NotExisting accounts, else GetStorage; GetAccount when the
address is absent.  No mutation on any path. -/
def storage (db : InMemoryDb) (address index : Nat) : Except DatabaseError Nat :=
  match mfind? db.accounts address with
  | some acc =>
      match mfind? acc.storage index with
      | some v => Except.ok v
      | none =>
          if acc.account_state = AccountState.storageCleared ∨
             acc.account_state = AccountState.notExisting then
            Except.ok 0
          else
            Except.error (DatabaseError.GetStorage address index)
  | none => Except.error (DatabaseError.GetAccount address)

/-- memdb.rs Database::block_hash. -/
def block_hash (db : InMemoryDb) (number : Nat) : Except DatabaseError B256 :=
  match mfind? db.block_hashes number with
  | some h => Except.ok h
  | none => Except.error (DatabaseError.GetBlockHash number)

end InMemoryDb

/-- Body of the per-account loop of DatabaseCommit::commit, shared verbatim
by memdb.rs and forkdb.rs; acts on the accounts and contracts tables. -/
def commitOne (accounts : List (Nat × DbAccount)) (contracts : List (B256 × List Nat))
    (address : Nat) (account : Account) :
    List (Nat × DbAccount) × List (B256 × List Nat) :=
  if account.is_touched = false then (accounts, contracts)
  else if account.is_selfdestructed then
    (mupdate accounts address DbAccount.default (fun a =>
      { a with
        storage := []
        account_state := AccountState.notExisting
        info := AccountInfo.default }), contracts)
  else
    let is_newly_created := account.is_created
    let p := insert_contract contracts account.info
    let accounts := mupdate accounts address DbAccount.default (fun db_account =>
      let db_account := { db_account with info := p.1 }
      let cleared : List (Nat × Nat) × AccountState :=
        if is_newly_created then ([], AccountState.storageCleared)
        else if db_account.account_state.is_storage_cleared then
          (db_account.storage, AccountState.storageCleared)
        else (db_account.storage, AccountState.touched)
      { db_account with
        account_state := cleared.2
        storage := account.storage.foldl
          (fun s kv => minsert s kv.1 kv.2.present_value) cleared.1 })
    (accounts, p.2)

/-- memdb.rs DatabaseCommit::commit: fold of commitOne over the batch. -/
def InMemoryDb.commit (db : InMemoryDb) (changes : List (Nat × Account)) : InMemoryDb :=
  changes.foldl (fun db c =>
    let p := commitOne db.accounts db.contracts c.1 c.2
    { db with accounts := p.1, contracts := p.2 }) db

/-- The remote fetch bridge of forkdb.rs as an oracle: each request either
yields a value or fails (the Err of the provider call).  fetch_basic
yields the raw (nonce, balance, code-bytes) triple the three joined RPC
calls produce. -/
structure Fetcher where
  fetch_basic : Nat → Nat → Option (Nat × Nat × List Nat)
  fetch_storage : Nat → Nat → Nat → Option Nat
  fetch_blockhash : Nat → Option B256

/-- forkdb.rs fetch_basic_from_fork: build an AccountInfo from the fetched
triple via AccountInfo::new(balance, nonce, bytecode.hash_slow(),
bytecode). -/
def fetch_basic_from_fork (f : Fetcher) (block_number address : Nat) :
    Option AccountInfo :=
  match f.fetch_basic block_number address with
  | some t =>
      some { balance := t.2.1, nonce := t.1, code_hash := hash_slow t.2.2, code := some t.2.2 }
  | none => none

/-- forkdb.rs fetch_blockhash_from_fork: numbers above u64::MAX short-cut
to KECCAK_EMPTY without a remote request; otherwise the provider is asked
for the block hash. -/
def fetch_blockhash_from_fork (f : Fetcher) (number : Nat) : Option B256 :=
  if 2 ^ 64 ≤ number then some B256.keccakEmpty
  else f.fetch_blockhash number

/-- forkdb.rs ForkDb.  The provider handle is not part of the state: it is
passed to each operation as the Fetcher oracle. -/
structure ForkDb where
  accounts : List (Nat × DbAccount)
  contracts : List (B256 × List Nat)
  logs : List Unit
  block_hashes : List (Nat × B256)
  block_number : Nat
deriving DecidableEq

/-- forkdb.rs ForkDb::new with a resolved starting block number (when the
caller passes None the constructor fetches the latest block number before
building the same initial state). -/
def ForkDb.new (block_number : Nat) : ForkDb :=
  { accounts := []
    contracts := [(B256.keccakEmpty, []), (B256.zero, [])]
    logs := []
    block_hashes := []
    block_number := block_number }

namespace ForkDb

/-- forkdb.rs insert_account_info. -/
def insert_account_info (db : ForkDb) (address : Nat) (info : AccountInfo) : ForkDb :=
  let p := insert_contract db.contracts info
  { db with
    contracts := p.2
    accounts := mupdate db.accounts address DbAccount.default (fun a => { a with info := p.1 }) }

/-- forkdb.rs insert_account_storage. -/
def insert_account_storage (db : ForkDb) (address slot value : Nat) :
    Except DatabaseError ForkDb :=
  match mfind? db.accounts address with
  | some acc =>
      Except.ok { db with
        accounts := minsert db.accounts address
          { acc with storage := minsert acc.storage slot value } }
  | none => Except.error (DatabaseError.GetAccount address)

/-- forkdb.rs replace_account_storage. -/
def replace_account_storage (db : ForkDb) (address : Nat)
    (storage : List (Nat × Nat)) : Except DatabaseError ForkDb :=
  match mfind? db.accounts address with
  | some acc =>
      Except.ok { db with
        accounts := minsert db.accounts address
          { acc with account_state := AccountState.storageCleared, storage := storage } }
  | none => Except.error (DatabaseError.GetAccount address)

/-- forkdb.rs Database::basic.  A hit answers from the table (no bridge
invocation).  A miss fetches once: success inserts the fetched info with
the default (None / "Fresh") state, failure inserts the NotExisting
sentinel; either way the inserted record's info() is returned.  The last
component counts bridge invocations made by this call. -/
def basic (f : Fetcher) (db : ForkDb) (address : Nat) :
    Option AccountInfo × ForkDb × Nat :=
  match mfind? db.accounts address with
  | some acc => (acc.infoOpt, db, 0)
  | none =>
      let account :=
        match fetch_basic_from_fork f db.block_number address with
        | some i => { DbAccount.default with info := i }
        | none => DbAccount.new_not_existing
      (account.infoOpt, { db with accounts := minsert db.accounts address account }, 1)

/-- forkdb.rs Database::code_by_hash: served purely from the table, a miss
is the MissingCode error, never fetched. -/
def code_by_hash (db : ForkDb) (h : B256) : Except DatabaseError (List Nat) :=
  match mfind? db.contracts h with
  | some c => Except.ok c
  | none => Except.error (DatabaseError.MissingCode h)

/-- forkdb.rs Database::storage: cached slot answered locally; a miss on a
StorageCleared/NotExisting account is zero without remote contact;
otherwise one bridge fetch, cached on success, GetStorage error on
failure; an address absent from the table is the GetAccount error. -/
def storage (f : Fetcher) (db : ForkDb) (address index : Nat) :
    Except DatabaseError Nat × ForkDb × Nat :=
  match mfind? db.accounts address with
  | some acc =>
      match mfind? acc.storage index with
      | some v => (Except.ok v, db, 0)
      | none =>
          if acc.account_state = AccountState.storageCleared ∨
             acc.account_state = AccountState.notExisting then
            (Except.ok 0, db, 0)
          else
            match f.fetch_storage db.block_number address index with
            | some s =>
                let acc2 := { acc with storage := minsert acc.storage index s }
                (Except.ok s,
                 { db with accounts := minsert db.accounts address acc2 }, 1)
            | none => (Except.error (DatabaseError.GetStorage address index), db, 1)
  | none => (Except.error (DatabaseError.GetAccount address), db, 0)

/-- forkdb.rs Database::block_hash: cached permanently on first fetch. -/
def block_hash (f : Fetcher) (db : ForkDb) (number : Nat) :
    Except DatabaseError B256 × ForkDb × Nat :=
  match mfind? db.block_hashes number with
  | some h => (Except.ok h, db, 0)
  | none =>
      match fetch_blockhash_from_fork f number with
      | some h =>
          (Except.ok h, { db with block_hashes := minsert db.block_hashes number h }, 1)
      | none => (Except.error (DatabaseError.GetBlockHash number), db, 1)

/-- forkdb.rs DatabaseCommit::commit: same per-account body as memdb. -/
def commit (db : ForkDb) (changes : List (Nat × Account)) : ForkDb :=
  changes.foldl (fun db c =>
    let p := commitOne db.accounts db.contracts c.1 c.2
    { db with accounts := p.1, contracts := p.2 }) db

end ForkDb

/-- snapshot.rs SerializingSource. -/
inductive SnapShotSource where
  | memory
  | fork
deriving DecidableEq

/-- snapshot.rs SerializableAccountRecord: one account of a snapshot, code
resolved inline as raw bytes. -/
structure SnapShotAccountRecord where
  nonce : Nat
  balance : Nat
  code : List Nat
  storage : List (Nat × Nat)
deriving DecidableEq

/-- snapshot.rs SerializableState.  The BTreeMap key ordering only affects
serialised byte layout, not any lookup, so accounts are kept as an
association list. -/
structure SnapShot where
  source : SnapShotSource
  block_num : Nat
  accounts : List (Nat × SnapShotAccountRecord)
deriving DecidableEq

/-- Fail-fast per-account collection of the snapshot map (the Rust
map-then-collect over Result): each account's code is the inline code
field when present, else resolved from the code table, a miss aborting
the whole snapshot with the propagated error. -/
def collectSnapShotAccounts (db : InMemoryDb) :
    List (Nat × DbAccount) → Except DatabaseError (List (Nat × SnapShotAccountRecord))
  | [] => Except.ok []
  | p :: rest =>
      match (match p.2.info.code with
             | some c => Except.ok c
             | none => db.code_by_hash p.2.info.code_hash) with
      | Except.error e => Except.error e
      | Except.ok code =>
          match collectSnapShotAccounts db rest with
          | Except.error e => Except.error e
          | Except.ok tail =>
              Except.ok ((p.1,
                { nonce := p.2.info.nonce
                  balance := p.2.info.balance
                  code := code
                  storage := p.2.storage : SnapShotAccountRecord }) :: tail)

/-- db/mod.rs StorageBackend::create_snapshot (in-memory path; the fork
path is the same fold over the fork store) and, identically, baseevm.rs
dump_state: collect every account with inlined code and storage, plus the
block number; the BTreeMap ordering of the result only affects serialised
bytes, never a lookup. -/
def InMemoryDb.create_snapshot (db : InMemoryDb) : Except DatabaseError SnapShot :=
  match collectSnapShotAccounts db db.accounts with
  | Except.error e => Except.error e
  | Except.ok accounts =>
      Except.ok { source := SnapShotSource.memory
                  block_num := db.block_number
                  accounts := accounts }

/-- db/mod.rs StorageBackend::load_snapshot and, identically, baseevm.rs
load_state: always materialises into the in-memory store; per account it
calls insert_account_info with code_hash KECCAK_EMPTY and the inline code
bytes (None when empty), then inserts each snapshot storage slot into the
account's storage map (entry or_default). -/
def load_snapshot (db : InMemoryDb) (snapshot : SnapShot) : InMemoryDb :=
  let db := db.set_blocknumber snapshot.block_num
  snapshot.accounts.foldl (fun db p =>
    let db := db.insert_account_info p.1
      { balance := p.2.balance
        nonce := p.2.nonce
        code_hash := B256.keccakEmpty
        code := if p.2.code = [] then none else some p.2.code }
    p.2.storage.foldl (fun db kv =>
      let upd := mupdate db.accounts p.1 DbAccount.default
        (fun a => { a with storage := minsert a.storage kv.1 kv.2 })
      { db with accounts := upd }) db) db

/-- Mutating operations of the in-memory backend, for reachable-state
invariants.  Read-only operations (code_by_hash, block_hash, storage,
create_snapshot) do not change an InMemoryDb and are omitted from the
step type; basic is included because it inserts a sentinel on a miss. -/
inductive MemOp where
  | basic (address : Nat)
  | commit (changes : List (Nat × Account))
  | insert_account_info (address : Nat) (info : AccountInfo)
  | insert_account_storage (address slot value : Nat)
  | replace_account_storage (address : Nat) (storage : List (Nat × Nat))
  | set_blocknumber (num : Nat)
  | load_snapshot (snapshot : SnapShot)

/-- One step of the in-memory backend. -/
def InMemoryDb.runOp (db : InMemoryDb) : MemOp → InMemoryDb
  | MemOp.basic address => (db.basic address).2
  | MemOp.commit changes => db.commit changes
  | MemOp.insert_account_info address info => db.insert_account_info address info
  | MemOp.insert_account_storage address slot value =>
      match db.insert_account_storage address slot value with
      | Except.ok db2 => db2
      | Except.error _ => db
  | MemOp.replace_account_storage address storage =>
      match db.replace_account_storage address storage with
      | Except.ok db2 => db2
      | Except.error _ => db
  | MemOp.set_blocknumber num => db.set_blocknumber num
  | MemOp.load_snapshot snapshot => load_snapshot db snapshot

/-- A run of the in-memory backend from a starting state. -/
def InMemoryDb.runOps (db : InMemoryDb) (ops : List MemOp) : InMemoryDb :=
  ops.foldl InMemoryDb.runOp db

/-- Mutating operations of the fork backend; each carries the fetcher in
effect when it executes, so the bridge may change (or be disabled)
between operations. -/
inductive ForkOp where
  | basic (f : Fetcher) (address : Nat)
  | storage (f : Fetcher) (address index : Nat)
  | block_hash (f : Fetcher) (number : Nat)
  | commit (changes : List (Nat × Account))
  | insert_account_info (address : Nat) (info : AccountInfo)
  | insert_account_storage (address slot value : Nat)
  | replace_account_storage (address : Nat) (storage : List (Nat × Nat))

/-- One step of the fork backend. -/
def ForkDb.runOp (db : ForkDb) : ForkOp → ForkDb
  | ForkOp.basic f address => (ForkDb.basic f db address).2.1
  | ForkOp.storage f address index => (ForkDb.storage f db address index).2.1
  | ForkOp.block_hash f number => (ForkDb.block_hash f db number).2.1
  | ForkOp.commit changes => db.commit changes
  | ForkOp.insert_account_info address info => db.insert_account_info address info
  | ForkOp.insert_account_storage address slot value =>
      match db.insert_account_storage address slot value with
      | Except.ok db2 => db2
      | Except.error _ => db
  | ForkOp.replace_account_storage address storage =>
      match db.replace_account_storage address storage with
      | Except.ok db2 => db2
      | Except.error _ => db

/-- A run of the fork backend from a starting state. -/
def ForkDb.runOps (db : ForkDb) (ops : List ForkOp) : ForkDb :=
  ops.foldl ForkDb.runOp db

/-- The commit loop at the level of the (accounts, contracts) pair. -/
def commitList (ac : List (Nat × DbAccount) × List (B256 × List Nat))
    (changes : List (Nat × Account)) :
    List (Nat × DbAccount) × List (B256 × List Nat) :=
  changes.foldl (fun ac c => commitOne ac.1 ac.2 c.1 c.2) ac

/-- One iteration of the load_snapshot loop (insert the account info, then
insert each snapshot storage slot into the account's storage map). -/
def loadStep (db : InMemoryDb) (p : Nat × SnapShotAccountRecord) : InMemoryDb :=
  let db := db.insert_account_info p.1
    { balance := p.2.balance
      nonce := p.2.nonce
      code_hash := B256.keccakEmpty
      code := if p.2.code = [] then none else some p.2.code }
  p.2.storage.foldl (fun db kv =>
    let upd := mupdate db.accounts p.1 DbAccount.default
      (fun a => { a with storage := minsert a.storage kv.1 kv.2 })
    { db with accounts := upd }) db

/-- The load_snapshot loop over a list of snapshot accounts. -/
def loadFold (L : List (Nat × SnapShotAccountRecord)) (db : InMemoryDb) : InMemoryDb :=
  L.foldl loadStep db

/-- The account info the import path produces for a snapshot record: the
code hash is recomputed from the inlined code bytes (empty code stays at
the KECCAK_EMPTY placeholder). -/
def loadInfo (r : SnapShotAccountRecord) : AccountInfo :=
  { balance := r.balance
    nonce := r.nonce
    code_hash := hash_slow r.code
    code := if r.code = [] then none else some r.code }

/-- A storage association list rebuilt by inserting each pair in order
into an empty map, as the import and commit loops do. -/
def foldStorage (L : List (Nat × Nat)) : List (Nat × Nat) :=
  L.foldl (fun m kv => minsert m kv.1 kv.2) []

/-- The code bytes the snapshot records for an account: the inline code
field when present, else the code-table entry for its hash (empty when
that is missing, in which case snapshot creation errors anyway). -/
def resolvedCode (db : InMemoryDb) (acc : DbAccount) : List Nat :=
  match acc.info.code with
  | some c => c
  | none => (mfind? db.contracts acc.info.code_hash).getD []

/-- The snapshot record the export path produces for an account. -/
def mkSnapShotRecord (db : InMemoryDb) (acc : DbAccount) : SnapShotAccountRecord :=
  { nonce := acc.info.nonce
    balance := acc.info.balance
    code := resolvedCode db acc
    storage := acc.storage }

/-- Wellformedness of one account record against a store: a cache state
that is neither NotExisting nor StorageCleared, pairwise distinct storage
keys (a HashMap invariant), and a consistent registered code hash. -/
def WellFormedAccount (db : InMemoryDb) (acc : DbAccount) : Prop :=
  (acc.account_state = AccountState.touched ∨ acc.account_state = AccountState.nought) ∧
  (acc.storage.map Prod.fst).Nodup ∧
  ∃ cbytes, mfind? db.contracts acc.info.code_hash = some cbytes ∧
    (acc.info.code = none ∨ acc.info.code = some cbytes) ∧
    acc.info.code_hash = hash_slow cbytes

/-- Wellformedness of a whole store. -/
def WellFormed (db : InMemoryDb) : Prop :=
  (db.accounts.map Prod.fst).Nodup ∧ ∀ p ∈ db.accounts, WellFormedAccount db p.2

/-- Soundness of keccak-keyed code-table entries: an entry stored under
the hash of some bytecode is that bytecode. -/
def KeccakSound (m : List (B256 × List Nat)) : Prop :=
  ∀ c : List Nat, mfind? m (B256.keccak c) = none ∨ mfind? m (B256.keccak c) = some c

/-- The two reserved code entries: empty-code hash and all-zero sentinel,
both mapping to empty bytecode. -/
def hasReservedCode (contracts : List (B256 × List Nat)) : Prop :=
  mfind? contracts B256.keccakEmpty = some [] ∧ mfind? contracts B256.zero = some []

/-- Concrete bridge oracle whose every request fails (bridge disabled). -/
def fetchNone : Fetcher :=
  { fetch_basic := fun _ _ => none
    fetch_storage := fun _ _ _ => none
    fetch_blockhash := fun _ => none }

/-- Concrete bridge oracle answering every request. -/
def fetchSome : Fetcher :=
  { fetch_basic := fun _ _ => some (1, 2, [])
    fetch_storage := fun _ _ _ => some 3
    fetch_blockhash := fun _ => some B256.zero }

/-! ### Association-list lemmas -/

theorem mfind?_minsert {κ α : Type} [DecidableEq κ] (m : List (κ × α)) (k k' : κ) (v : α) :
    mfind? (minsert m k v) k' = if k = k' then some v else mfind? m k' := by
  induction m with
  | nil => simp [minsert, mfind?]
  | cons h t ih =>
      by_cases h1 : h.1 = k
      · simp only [minsert, mfind?, h1, if_pos rfl]
        by_cases h2 : k = k'
        · simp [mfind?, h2]
        · simp [mfind?, h2]
      · simp only [minsert, mfind?, if_neg h1]
        by_cases h2 : h.1 = k'
        · have : ¬ k = k' := fun e => h1 (e ▸ h2)
          simp [mfind?, h2, this]
        · simp [mfind?, h2, ih]

theorem mfind?_minsert_self {κ α : Type} [DecidableEq κ] (m : List (κ × α)) (k : κ) (v : α) :
    mfind? (minsert m k v) k = some v := by
  simp [mfind?_minsert]

theorem mfind?_minsert_other {κ α : Type} [DecidableEq κ] (m : List (κ × α)) (k k' : κ)
    (v : α) (h : k ≠ k') : mfind? (minsert m k v) k' = mfind? m k' := by
  simp [mfind?_minsert, h]

theorem mfind?_mupdate {κ α : Type} [DecidableEq κ] (m : List (κ × α)) (k k' : κ)
    (d : α) (f : α → α) :
    mfind? (mupdate m k d f) k' =
      if k = k' then some (f ((mfind? m k).getD d)) else mfind? m k' := by
  unfold mupdate
  cases h : mfind? m k with
  | none => simp [mfind?_minsert, h]
  | some v => simp [mfind?_minsert, h]

theorem mfind?_mupdate_self {κ α : Type} [DecidableEq κ] (m : List (κ × α)) (k : κ)
    (d : α) (f : α → α) :
    mfind? (mupdate m k d f) k = some (f ((mfind? m k).getD d)) := by
  simp [mfind?_mupdate]

theorem mfind?_mupdate_other {κ α : Type} [DecidableEq κ] (m : List (κ × α)) (k k' : κ)
    (d : α) (f : α → α) (h : k ≠ k') : mfind? (mupdate m k d f) k' = mfind? m k' := by
  simp [mfind?_mupdate, h]

theorem mfind?_eq_none_of_not_mem {κ α : Type} [DecidableEq κ] (m : List (κ × α)) (k : κ)
    (h : k ∉ m.map Prod.fst) : mfind? m k = none := by
  induction m with
  | nil => rfl
  | cons p t ih =>
      simp only [List.map_cons, List.mem_cons] at h
      push_neg at h
      simp only [mfind?]
      rw [if_neg (fun e => h.1 e.symm)]
      exact ih h.2

/-- Lookup through a left fold of keyed inserts: with pairwise distinct
keys the fold behaves like a pointwise map lookup. -/
theorem mfind?_foldl_minsert {κ α β : Type} [DecidableEq κ] (g : β → α)
    (L : List (κ × β)) (s0 : List (κ × α)) (k : κ)
    (hnd : (L.map Prod.fst).Nodup) :
    mfind? (L.foldl (fun s kv => minsert s kv.1 (g kv.2)) s0) k =
      match mfind? L k with
      | some b => some (g b)
      | none => mfind? s0 k := by
  induction L generalizing s0 with
  | nil => simp [mfind?]
  | cons p t ih =>
      simp only [List.map_cons, List.nodup_cons] at hnd
      simp only [List.foldl_cons]
      rw [ih _ hnd.2]
      by_cases hk : p.1 = k
      · subst hk
        have ht : mfind? t p.1 = none := mfind?_eq_none_of_not_mem t p.1 hnd.1
        simp [mfind?, ht, mfind?_minsert_self]
      · simp only [mfind?, if_neg hk]
        cases mfind? t k with
        | some b => rfl
        | none => exact mfind?_minsert_other s0 p.1 k (g p.2) hk

/-! ### Commit fold machinery, shared by both backends -/

theorem mem_commit_eq (db : InMemoryDb) (changes : List (Nat × Account)) :
    db.commit changes =
      { db with
        accounts := (commitList (db.accounts, db.contracts) changes).1
        contracts := (commitList (db.accounts, db.contracts) changes).2 } := by
  induction changes generalizing db with
  | nil => simp [InMemoryDb.commit, commitList]
  | cons c t ih =>
      simp only [InMemoryDb.commit, List.foldl_cons, commitList] at *
      rw [ih]

theorem fork_commit_eq (db : ForkDb) (changes : List (Nat × Account)) :
    db.commit changes =
      { db with
        accounts := (commitList (db.accounts, db.contracts) changes).1
        contracts := (commitList (db.accounts, db.contracts) changes).2 } := by
  induction changes generalizing db with
  | nil => simp [ForkDb.commit, commitList]
  | cons c t ih =>
      simp only [ForkDb.commit, List.foldl_cons, commitList] at *
      rw [ih]

/-- A commit step for some other address never changes the record of X. -/
theorem commitOne_lookup_other (accounts : List (Nat × DbAccount))
    (contracts : List (B256 × List Nat)) (address : Nat) (account : Account) (X : Nat)
    (h : address ≠ X) :
    mfind? (commitOne accounts contracts address account).1 X = mfind? accounts X := by
  unfold commitOne
  by_cases ht : account.is_touched = false
  · simp [ht]
  · by_cases hsd : account.is_selfdestructed
    · simp [ht, hsd, mfind?_mupdate_other _ _ _ _ _ h]
    · simp [ht, hsd, mfind?_mupdate_other _ _ _ _ _ h]

/-- An untouched batch entry is skipped entirely. -/
theorem commitOne_untouched (accounts : List (Nat × DbAccount))
    (contracts : List (B256 × List Nat)) (address : Nat) (account : Account)
    (h : account.is_touched = false) :
    commitOne accounts contracts address account = (accounts, contracts) := by
  unfold commitOne
  simp [h]

/-- Frame of commit: an address all of whose batch entries are untouched
keeps exactly its previous record. -/
theorem commitList_lookup_untouched (changes : List (Nat × Account))
    (ac : List (Nat × DbAccount) × List (B256 × List Nat)) (X : Nat)
    (h : ∀ acct, (X, acct) ∈ changes → acct.is_touched = false) :
    mfind? (commitList ac changes).1 X = mfind? ac.1 X := by
  induction changes generalizing ac with
  | nil => rfl
  | cons c t ih =>
      simp only [commitList, List.foldl_cons]
      rw [show (List.foldl (fun ac c => commitOne ac.1 ac.2 c.1 c.2)
            (commitOne ac.1 ac.2 c.1 c.2) t) =
          commitList (commitOne ac.1 ac.2 c.1 c.2) t from rfl]
      rw [ih _ (fun a hm => h a (List.mem_cons_of_mem _ hm))]
      by_cases hc : c.1 = X
      · have : c.2.is_touched = false := h c.2 (by rw [← hc]; exact List.mem_cons_self _ _)
        rw [commitOne_untouched _ _ _ _ this]
      · exact commitOne_lookup_other _ _ _ _ _ hc

/-- Commit never touches the record of an address outside the batch. -/
theorem commitList_lookup_not_mem (changes : List (Nat × Account))
    (ac : List (Nat × DbAccount) × List (B256 × List Nat)) (X : Nat)
    (h : X ∉ changes.map Prod.fst) :
    mfind? (commitList ac changes).1 X = mfind? ac.1 X := by
  induction changes generalizing ac with
  | nil => rfl
  | cons c t ih =>
      simp only [List.map_cons, List.mem_cons] at h
      push_neg at h
      simp only [commitList, List.foldl_cons]
      rw [show (List.foldl (fun ac c => commitOne ac.1 ac.2 c.1 c.2)
            (commitOne ac.1 ac.2 c.1 c.2) t) =
          commitList (commitOne ac.1 ac.2 c.1 c.2) t from rfl]
      rw [ih _ h.2]
      exact commitOne_lookup_other _ _ _ _ _ (fun e => h.1 e.symm)

/-- The self-destruct arm of the commit body: the record becomes the empty
NotExisting record, whatever it was before. -/
theorem commitOne_lookup_selfdestruct (accounts : List (Nat × DbAccount))
    (contracts : List (B256 × List Nat)) (address : Nat) (account : Account)
    (ht : account.is_touched = true) (hsd : account.is_selfdestructed = true) :
    mfind? (commitOne accounts contracts address account).1 address =
      some { info := AccountInfo.default
             account_state := AccountState.notExisting
             storage := [] } := by
  unfold commitOne
  simp [ht, hsd, mfind?_mupdate_self]

/-- The newly-created arm of the commit body: prior storage is discarded,
the state becomes StorageCleared, and the storage map is rebuilt from the
batch entry's present values. -/
theorem commitOne_lookup_created (accounts : List (Nat × DbAccount))
    (contracts : List (B256 × List Nat)) (address : Nat) (account : Account)
    (ht : account.is_touched = true) (hsd : account.is_selfdestructed = false)
    (hcr : account.is_created = true) :
    mfind? (commitOne accounts contracts address account).1 address =
      some { info := (insert_contract contracts account.info).1
             account_state := AccountState.storageCleared
             storage := account.storage.foldl
               (fun s kv => minsert s kv.1 kv.2.present_value) [] } := by
  unfold commitOne
  simp [ht, hsd, hcr, mfind?_mupdate_self]

/-- Record of a self-destructed, touched batch account after the whole
commit (batch keys pairwise distinct, as for a Rust HashMap). -/
theorem commitList_lookup_selfdestruct (changes : List (Nat × Account))
    (ac : List (Nat × DbAccount) × List (B256 × List Nat)) (A : Nat) (acct : Account)
    (hmem : (A, acct) ∈ changes) (hnd : (changes.map Prod.fst).Nodup)
    (ht : acct.is_touched = true) (hsd : acct.is_selfdestructed = true) :
    mfind? (commitList ac changes).1 A =
      some { info := AccountInfo.default
             account_state := AccountState.notExisting
             storage := [] } := by
  induction changes generalizing ac with
  | nil => cases hmem
  | cons c t ih =>
      simp only [List.map_cons, List.nodup_cons] at hnd
      simp only [commitList, List.foldl_cons]
      rw [show (List.foldl (fun ac c => commitOne ac.1 ac.2 c.1 c.2)
            (commitOne ac.1 ac.2 c.1 c.2) t) =
          commitList (commitOne ac.1 ac.2 c.1 c.2) t from rfl]
      rcases List.mem_cons.mp hmem with hc | hmt
      · have hA : c.1 = A := by rw [← hc]
        have hAcct : c.2 = acct := by rw [← hc]
        have hnt : A ∉ t.map Prod.fst := by rw [← hA]; exact hnd.1
        rw [commitList_lookup_not_mem t _ A hnt, hA, hAcct]
        exact commitOne_lookup_selfdestruct _ _ _ _ ht hsd
      · have hne : c.1 ≠ A := by
          intro e
          exact hnd.1 (e ▸ (List.mem_map_of_mem Prod.fst hmt))
        exact ih _ hmt hnd.2

/-- Record of a touched, newly-created (not self-destructed) batch account
after the whole commit: StorageCleared, storage rebuilt from the batch. -/
theorem commitList_lookup_created (changes : List (Nat × Account))
    (ac : List (Nat × DbAccount) × List (B256 × List Nat)) (A : Nat) (acct : Account)
    (hmem : (A, acct) ∈ changes) (hnd : (changes.map Prod.fst).Nodup)
    (ht : acct.is_touched = true) (hsd : acct.is_selfdestructed = false)
    (hcr : acct.is_created = true) :
    ∃ i, mfind? (commitList ac changes).1 A =
      some { info := i
             account_state := AccountState.storageCleared
             storage := acct.storage.foldl
               (fun s kv => minsert s kv.1 kv.2.present_value) [] } := by
  induction changes generalizing ac with
  | nil => cases hmem
  | cons c t ih =>
      simp only [List.map_cons, List.nodup_cons] at hnd
      simp only [commitList, List.foldl_cons]
      rw [show (List.foldl (fun ac c => commitOne ac.1 ac.2 c.1 c.2)
            (commitOne ac.1 ac.2 c.1 c.2) t) =
          commitList (commitOne ac.1 ac.2 c.1 c.2) t from rfl]
      rcases List.mem_cons.mp hmem with hc | hmt
      · have hA : c.1 = A := by rw [← hc]
        have hAcct : c.2 = acct := by rw [← hc]
        have hnt : A ∉ t.map Prod.fst := by rw [← hA]; exact hnd.1
        rw [commitList_lookup_not_mem t _ A hnt, hA, hAcct]
        exact ⟨(insert_contract ac.2 acct.info).1,
          commitOne_lookup_created _ _ _ _ ht hsd hcr⟩
      · exact ih _ hmt hnd.2

/-! ### Presence and code-table preservation -/

/-- The commit body never removes an account record. -/
theorem commitOne_preserves_isSome (accounts : List (Nat × DbAccount))
    (contracts : List (B256 × List Nat)) (address : Nat) (account : Account) (X : Nat)
    (h : (mfind? accounts X).isSome) :
    (mfind? (commitOne accounts contracts address account).1 X).isSome := by
  by_cases hc : address = X
  · subst hc
    unfold commitOne
    by_cases ht : account.is_touched = false
    · simpa [ht] using h
    · by_cases hsd : account.is_selfdestructed
      · simp [ht, hsd, mfind?_mupdate_self]
      · simp [ht, hsd, mfind?_mupdate_self]
  · rw [commitOne_lookup_other _ _ _ _ _ hc]
    exact h

theorem commitList_preserves_isSome (changes : List (Nat × Account))
    (ac : List (Nat × DbAccount) × List (B256 × List Nat)) (X : Nat)
    (h : (mfind? ac.1 X).isSome) :
    (mfind? (commitList ac changes).1 X).isSome := by
  induction changes generalizing ac with
  | nil => exact h
  | cons c t ih =>
      simp only [commitList, List.foldl_cons]
      rw [show (List.foldl (fun ac c => commitOne ac.1 ac.2 c.1 c.2)
            (commitOne ac.1 ac.2 c.1 c.2) t) =
          commitList (commitOne ac.1 ac.2 c.1 c.2) t from rfl]
      exact ih _ (commitOne_preserves_isSome _ _ _ _ _ h)

/-- Entry::or_insert_with preserves every mapping already present. -/
theorem orInsert_preserves {α : Type} [DecidableEq α] (m : List (α × List Nat))
    (k : α) (v : List Nat) (h : α) (c : List Nat) (hc : mfind? m h = some c) :
    mfind? (match mfind? m k with
            | some _ => m
            | none => minsert m k v) h = some c := by
  cases hfind : mfind? m k with
  | some w => exact hc
  | none =>
      have hne : k ≠ h := by
        intro e
        rw [e, hc] at hfind
        cases hfind
      rw [mfind?_minsert_other _ _ _ _ hne]
      exact hc

/-- insert_contract only ever insert-if-absent: a mapping already present
in the code table is never changed. -/
theorem insert_contract_preserves (contracts : List (B256 × List Nat))
    (account : AccountInfo) (h : B256) (c : List Nat)
    (hc : mfind? contracts h = some c) :
    mfind? (insert_contract contracts account).2 h = some c := by
  unfold insert_contract
  cases hcode : account.code with
  | none => simpa using hc
  | some code =>
      by_cases hnil : code = []
      · simpa [hnil] using hc
      · simp only [hnil, if_neg (by exact hnil)]
        exact orInsert_preserves contracts _ code h c hc

/-- The commit body preserves existing code-table mappings. -/
theorem commitOne_contracts_preserves (accounts : List (Nat × DbAccount))
    (contracts : List (B256 × List Nat)) (address : Nat) (account : Account)
    (h : B256) (c : List Nat) (hc : mfind? contracts h = some c) :
    mfind? (commitOne accounts contracts address account).2 h = some c := by
  unfold commitOne
  by_cases ht : account.is_touched = false
  · simpa [ht] using hc
  · by_cases hsd : account.is_selfdestructed
    · simpa [ht, hsd] using hc
    · simpa [ht, hsd] using insert_contract_preserves contracts account.info h c hc

theorem commitList_contracts_preserves (changes : List (Nat × Account))
    (ac : List (Nat × DbAccount) × List (B256 × List Nat)) (h : B256) (c : List Nat)
    (hc : mfind? ac.2 h = some c) :
    mfind? (commitList ac changes).2 h = some c := by
  induction changes generalizing ac with
  | nil => exact hc
  | cons e t ih =>
      simp only [commitList, List.foldl_cons]
      rw [show (List.foldl (fun ac c => commitOne ac.1 ac.2 c.1 c.2)
            (commitOne ac.1 ac.2 e.1 e.2) t) =
          commitList (commitOne ac.1 ac.2 e.1 e.2) t from rfl]
      exact ih _ (commitOne_contracts_preserves _ _ _ _ _ _ hc)

theorem mfind?_isSome_minsert {κ α : Type} [DecidableEq κ] (m : List (κ × α))
    (k : κ) (v : α) (X : κ) (h : (mfind? m X).isSome) :
    (mfind? (minsert m k v) X).isSome := by
  rw [mfind?_minsert]
  by_cases hk : k = X <;> simp [hk, h]

theorem mfind?_isSome_mupdate {κ α : Type} [DecidableEq κ] (m : List (κ × α))
    (k : κ) (d : α) (f : α → α) (X : κ) (h : (mfind? m X).isSome) :
    (mfind? (mupdate m k d f) X).isSome := by
  rw [mfind?_mupdate]
  by_cases hk : k = X <;> simp [hk, h]

/-- No fork-backend operation ever removes an account record. -/
theorem ForkDb.runOp_accounts_isSome (db : ForkDb) (op : ForkOp) (X : Nat)
    (h : (mfind? db.accounts X).isSome) :
    (mfind? (db.runOp op).accounts X).isSome := by
  cases op with
  | basic f address =>
      show (mfind? (ForkDb.basic f db address).2.1.accounts X).isSome
      unfold ForkDb.basic
      cases hfind : mfind? db.accounts address with
      | some acc => simpa using h
      | none =>
          simp only []
          exact mfind?_isSome_minsert _ _ _ _ h
  | storage f address index =>
      show (mfind? (ForkDb.storage f db address index).2.1.accounts X).isSome
      unfold ForkDb.storage
      cases hfind : mfind? db.accounts address with
      | some acc =>
          simp only [hfind]
          cases hslot : mfind? acc.storage index with
          | some v => simpa [hslot] using h
          | none =>
              simp only [hslot]
              by_cases hcl : acc.account_state = AccountState.storageCleared ∨
                  acc.account_state = AccountState.notExisting
              · simpa [hcl] using h
              · simp only [hcl, if_false]
                cases hfetch : f.fetch_storage db.block_number address index with
                | some s =>
                    simp only [hfetch]
                    exact mfind?_isSome_minsert _ _ _ _ h
                | none => simpa [hfetch] using h
      | none => simpa [hfind] using h
  | block_hash f number =>
      show (mfind? (ForkDb.block_hash f db number).2.1.accounts X).isSome
      unfold ForkDb.block_hash
      cases hfind : mfind? db.block_hashes number with
      | some hh => simpa using h
      | none =>
          cases hfetch : fetch_blockhash_from_fork f number with
          | some hh => simpa using h
          | none => simpa using h
  | commit changes =>
      show (mfind? (db.commit changes).accounts X).isSome
      rw [fork_commit_eq]
      exact commitList_preserves_isSome _ _ _ h
  | insert_account_info address info =>
      exact mfind?_isSome_mupdate _ _ _ _ _ h
  | insert_account_storage address slot value =>
      show (mfind? (match db.insert_account_storage address slot value with
        | Except.ok db2 => db2
        | Except.error _ => db).accounts X).isSome
      unfold ForkDb.insert_account_storage
      cases hfind : mfind? db.accounts address with
      | some acc =>
          simp only []
          exact mfind?_isSome_minsert _ _ _ _ h
      | none => simpa using h
  | replace_account_storage address storage =>
      show (mfind? (match db.replace_account_storage address storage with
        | Except.ok db2 => db2
        | Except.error _ => db).accounts X).isSome
      unfold ForkDb.replace_account_storage
      cases hfind : mfind? db.accounts address with
      | some acc =>
          simp only []
          exact mfind?_isSome_minsert _ _ _ _ h
      | none => simpa using h

theorem ForkDb.runOps_accounts_isSome (db : ForkDb) (ops : List ForkOp) (X : Nat)
    (h : (mfind? db.accounts X).isSome) :
    (mfind? (db.runOps ops).accounts X).isSome := by
  induction ops generalizing db with
  | nil => exact h
  | cons op t ih =>
      exact ih _ (ForkDb.runOp_accounts_isSome db op X h)

/-- A fold whose step never changes the contracts field keeps it intact. -/
theorem foldl_contracts_invariant {β : Type} (f : InMemoryDb → β → InMemoryDb)
    (hf : ∀ db b, (f db b).contracts = db.contracts) (L : List β) (db : InMemoryDb) :
    (L.foldl f db).contracts = db.contracts := by
  induction L generalizing db with
  | nil => rfl
  | cons b t ih => rw [List.foldl_cons, ih, hf]

/-- Existing code-table mappings survive a snapshot import. -/
theorem load_snapshot_contracts_preserves (db : InMemoryDb) (snapshot : SnapShot)
    (h : B256) (c : List Nat) (hc : mfind? db.contracts h = some c) :
    mfind? (load_snapshot db snapshot).contracts h = some c := by
  unfold load_snapshot
  generalize snapshot.accounts = L
  have hdb : mfind? (db.set_blocknumber snapshot.block_num).contracts h = some c := hc
  generalize db.set_blocknumber snapshot.block_num = db0 at hdb
  induction L generalizing db0 with
  | nil => exact hdb
  | cons p t ih =>
      rw [List.foldl_cons]
      refine ih _ ?_
      dsimp only
      rw [foldl_contracts_invariant
        (fun db (kv : Nat × Nat) =>
          { db with accounts := mupdate db.accounts p.1 DbAccount.default fun a =>
              { a with storage := minsert a.storage kv.1 kv.2 } })
        (fun db b => rfl)]
      exact insert_contract_preserves _ _ _ _ hdb

/-- No in-memory backend operation changes or removes an existing
code-table mapping. -/
theorem mem_runOp_contracts_preserves (db : InMemoryDb) (op : MemOp)
    (h : B256) (c : List Nat) (hc : mfind? db.contracts h = some c) :
    mfind? ((db.runOp op).contracts) h = some c := by
  cases op with
  | basic address =>
      show mfind? ((db.basic address).2.contracts) h = some c
      unfold InMemoryDb.basic
      cases hfind : mfind? db.accounts address with
      | some acc => exact hc
      | none => exact hc
  | commit changes =>
      show mfind? ((db.commit changes).contracts) h = some c
      rw [mem_commit_eq]
      exact commitList_contracts_preserves _ _ _ _ hc
  | insert_account_info address info =>
      exact insert_contract_preserves _ _ _ _ hc
  | insert_account_storage address slot value =>
      show mfind? ((match db.insert_account_storage address slot value with
        | Except.ok db2 => db2
        | Except.error _ => db).contracts) h = some c
      unfold InMemoryDb.insert_account_storage
      cases hfind : mfind? db.accounts address with
      | some acc => exact hc
      | none => exact hc
  | replace_account_storage address storage =>
      show mfind? ((match db.replace_account_storage address storage with
        | Except.ok db2 => db2
        | Except.error _ => db).contracts) h = some c
      unfold InMemoryDb.replace_account_storage
      cases hfind : mfind? db.accounts address with
      | some acc => exact hc
      | none => exact hc
  | set_blocknumber num => exact hc
  | load_snapshot snapshot => exact load_snapshot_contracts_preserves _ _ _ _ hc

theorem mem_runOps_contracts_preserves (db : InMemoryDb) (ops : List MemOp)
    (h : B256) (c : List Nat) (hc : mfind? db.contracts h = some c) :
    mfind? ((db.runOps ops).contracts) h = some c := by
  induction ops generalizing db with
  | nil => exact hc
  | cons op t ih =>
      exact ih _ (mem_runOp_contracts_preserves db op h c hc)

/-- No fork backend operation changes or removes an existing code-table
mapping. -/
theorem fork_runOp_contracts_preserves (db : ForkDb) (op : ForkOp)
    (h : B256) (c : List Nat) (hc : mfind? db.contracts h = some c) :
    mfind? ((db.runOp op).contracts) h = some c := by
  cases op with
  | basic f address =>
      show mfind? ((ForkDb.basic f db address).2.1.contracts) h = some c
      unfold ForkDb.basic
      cases hfind : mfind? db.accounts address with
      | some acc => exact hc
      | none => exact hc
  | storage f address index =>
      show mfind? ((ForkDb.storage f db address index).2.1.contracts) h = some c
      unfold ForkDb.storage
      cases hfind : mfind? db.accounts address with
      | some acc =>
          simp only [hfind]
          cases hslot : mfind? acc.storage index with
          | some v => exact hc
          | none =>
              simp only [hslot]
              by_cases hcl : acc.account_state = AccountState.storageCleared ∨
                  acc.account_state = AccountState.notExisting
              · simpa [hcl] using hc
              · simp only [hcl, if_false]
                cases hfetch : f.fetch_storage db.block_number address index with
                | some s => simpa [hfetch] using hc
                | none => simpa [hfetch] using hc
      | none => simpa [hfind] using hc
  | block_hash f number =>
      show mfind? ((ForkDb.block_hash f db number).2.1.contracts) h = some c
      unfold ForkDb.block_hash
      cases hfind : mfind? db.block_hashes number with
      | some hh => exact hc
      | none =>
          cases hfetch : fetch_blockhash_from_fork f number with
          | some hh => simpa [hfind, hfetch] using hc
          | none => simpa [hfind, hfetch] using hc
  | commit changes =>
      show mfind? ((db.commit changes).contracts) h = some c
      rw [fork_commit_eq]
      exact commitList_contracts_preserves _ _ _ _ hc
  | insert_account_info address info =>
      exact insert_contract_preserves _ _ _ _ hc
  | insert_account_storage address slot value =>
      show mfind? ((match db.insert_account_storage address slot value with
        | Except.ok db2 => db2
        | Except.error _ => db).contracts) h = some c
      unfold ForkDb.insert_account_storage
      cases hfind : mfind? db.accounts address with
      | some acc => exact hc
      | none => exact hc
  | replace_account_storage address storage =>
      show mfind? ((match db.replace_account_storage address storage with
        | Except.ok db2 => db2
        | Except.error _ => db).contracts) h = some c
      unfold ForkDb.replace_account_storage
      cases hfind : mfind? db.accounts address with
      | some acc => exact hc
      | none => exact hc

theorem fork_runOps_contracts_preserves (db : ForkDb) (ops : List ForkOp)
    (h : B256) (c : List Nat) (hc : mfind? db.contracts h = some c) :
    mfind? ((db.runOps ops).contracts) h = some c := by
  induction ops generalizing db with
  | nil => exact hc
  | cons op t ih =>
      exact ih _ (fork_runOp_contracts_preserves db op h c hc)

/-! ### Snapshot import lemmas -/

theorem load_snapshot_eq (db : InMemoryDb) (snapshot : SnapShot) :
    load_snapshot db snapshot =
      loadFold snapshot.accounts (db.set_blocknumber snapshot.block_num) := rfl

theorem mem_nodup_mfind? {κ α : Type} [DecidableEq κ] (l : List (κ × α)) (k : κ) (v : α)
    (hmem : (k, v) ∈ l) (hnd : (l.map Prod.fst).Nodup) : mfind? l k = some v := by
  induction l with
  | nil => cases hmem
  | cons p t ih =>
      simp only [List.map_cons, List.nodup_cons] at hnd
      rcases List.mem_cons.mp hmem with hp | ht
      · rw [← hp]
        simp [mfind?]
      · have hne : p.1 ≠ k := by
          intro e
          exact hnd.1 (e ▸ List.mem_map_of_mem Prod.fst ht)
        simp only [mfind?, if_neg hne]
        exact ih ht hnd.2

theorem mfind?_map_snd {κ α β : Type} [DecidableEq κ] (l : List (κ × α)) (g : α → β)
    (k : κ) :
    mfind? (l.map (fun p => (p.1, g p.2))) k = (mfind? l k).map g := by
  induction l with
  | nil => rfl
  | cons p t ih =>
      simp only [List.map_cons, mfind?]
      by_cases hp : p.1 = k
      · simp [hp]
      · simp [hp, ih]

/-- The storage-insertion loop of the import path: lookups of other
addresses are untouched. -/
theorem innerFold_lookup_other (addr : Nat) (L : List (Nat × Nat)) (db : InMemoryDb)
    (X : Nat) (h : addr ≠ X) :
    mfind? ((L.foldl (fun db kv =>
      let upd := mupdate db.accounts addr DbAccount.default
        (fun a => { a with storage := minsert a.storage kv.1 kv.2 })
      { db with accounts := upd }) db).accounts) X = mfind? db.accounts X := by
  induction L generalizing db with
  | nil => rfl
  | cons kv t ih =>
      rw [List.foldl_cons, ih]
      exact mfind?_mupdate_other _ _ _ _ _ h

/-- The storage-insertion loop of the import path at its own address:
slots are added one by one on top of the existing record. -/
theorem innerFold_lookup_self (addr : Nat) (L : List (Nat × Nat)) (db : InMemoryDb)
    (acc : DbAccount) (hacc : mfind? db.accounts addr = some acc) :
    mfind? ((L.foldl (fun db kv =>
      let upd := mupdate db.accounts addr DbAccount.default
        (fun a => { a with storage := minsert a.storage kv.1 kv.2 })
      { db with accounts := upd }) db).accounts) addr =
      some { acc with storage := L.foldl (fun m kv => minsert m kv.1 kv.2) acc.storage } := by
  induction L generalizing db acc with
  | nil => simpa using hacc
  | cons kv t ih =>
      rw [List.foldl_cons, List.foldl_cons]
      refine (ih _ { acc with storage := minsert acc.storage kv.1 kv.2 } ?_)
      show mfind? (mupdate db.accounts addr DbAccount.default
        (fun a => { a with storage := minsert a.storage kv.1 kv.2 })) addr = _
      rw [mfind?_mupdate_self, hacc]
      rfl

/-- The info the import path stores: insert_contract recomputes the code
hash from the inlined bytes. -/
theorem insert_contract_load (contracts : List (B256 × List Nat))
    (r : SnapShotAccountRecord) :
    (insert_contract contracts
      { balance := r.balance, nonce := r.nonce, code_hash := B256.keccakEmpty
        code := if r.code = [] then none else some r.code }).1 = loadInfo r := by
  by_cases hc : r.code = []
  · simp [insert_contract, loadInfo, hash_slow, hc]
  · simp [insert_contract, loadInfo, hash_slow, hc]

/-- The code table after one import iteration: unchanged for empty code,
insert-if-absent of the rehashed code otherwise. -/
theorem insert_contract_load_contracts (contracts : List (B256 × List Nat))
    (r : SnapShotAccountRecord) :
    (insert_contract contracts
      { balance := r.balance, nonce := r.nonce, code_hash := B256.keccakEmpty
        code := if r.code = [] then none else some r.code }).2 =
      if r.code = [] then contracts
      else match mfind? contracts (B256.keccak r.code) with
        | some _ => contracts
        | none => minsert contracts (B256.keccak r.code) r.code := by
  by_cases hc : r.code = []
  · simp [insert_contract, hc]
  · simp [insert_contract, hash_slow, hc]

/-- The import iteration leaves records of other addresses untouched. -/
theorem loadStep_lookup_other (db : InMemoryDb) (p : Nat × SnapShotAccountRecord)
    (X : Nat) (h : p.1 ≠ X) :
    mfind? ((loadStep db p).accounts) X = mfind? db.accounts X := by
  unfold loadStep
  refine (innerFold_lookup_other p.1 p.2.storage _ X h).trans ?_
  exact mfind?_mupdate_other _ _ _ _ _ h

/-- The import iteration creates, for a previously absent address, a
record with the recomputed info, the default None state and exactly the
snapshot storage. -/
theorem loadStep_lookup_self (db : InMemoryDb) (p : Nat × SnapShotAccountRecord)
    (habs : mfind? db.accounts p.1 = none) :
    mfind? ((loadStep db p).accounts) p.1 =
      some { info := loadInfo p.2
             account_state := AccountState.nought
             storage := foldStorage p.2.storage } := by
  unfold loadStep
  have h1 : mfind? ((db.insert_account_info p.1
      { balance := p.2.balance, nonce := p.2.nonce, code_hash := B256.keccakEmpty
        code := if p.2.code = [] then none else some p.2.code }).accounts) p.1 =
      some { info := loadInfo p.2
             account_state := AccountState.nought
             storage := [] } := by
    unfold InMemoryDb.insert_account_info
    rw [mfind?_mupdate_self, habs]
    rw [insert_contract_load]
    rfl
  exact (innerFold_lookup_self p.1 p.2.storage _ _ h1)

/-- Lookup after the whole import loop, importing into a store that does
not yet hold any of the imported addresses. -/
theorem loadFold_lookup (L : List (Nat × SnapShotAccountRecord)) (db0 : InMemoryDb)
    (A : Nat) (hnd : (L.map Prod.fst).Nodup)
    (hdisj : ∀ p ∈ L, mfind? db0.accounts p.1 = none) :
    mfind? ((loadFold L db0).accounts) A =
      match mfind? L A with
      | some r => some { info := loadInfo r
                         account_state := AccountState.nought
                         storage := foldStorage r.storage }
      | none => mfind? db0.accounts A := by
  induction L generalizing db0 with
  | nil => rfl
  | cons p t ih =>
      simp only [List.map_cons, List.nodup_cons] at hnd
      have hstep : ∀ q ∈ t, mfind? ((loadStep db0 p).accounts) q.1 = none := by
        intro q hq
        have hne : p.1 ≠ q.1 := by
          intro e
          exact hnd.1 (e ▸ List.mem_map_of_mem Prod.fst hq)
        rw [loadStep_lookup_other _ _ _ hne]
        exact hdisj q (List.mem_cons_of_mem _ hq)
      have hfold : loadFold (p :: t) db0 = loadFold t (loadStep db0 p) := rfl
      rw [hfold, ih _ hnd.2 hstep]
      by_cases hA : p.1 = A
      · subst hA
        have htA : mfind? t p.1 = none := mfind?_eq_none_of_not_mem t p.1 hnd.1
        rw [htA]
        simp only [mfind?, if_pos rfl]
        exact loadStep_lookup_self db0 p (hdisj p (List.mem_cons_self _ _))
      · simp only [mfind?, if_neg hA]
        cases mfind? t A with
        | some r => rfl
        | none => exact loadStep_lookup_other db0 p A hA

/-- Contracts after one import iteration, as a single equation. -/
theorem loadStep_contracts (db : InMemoryDb) (p : Nat × SnapShotAccountRecord) :
    (loadStep db p).contracts =
      (insert_contract db.contracts
        { balance := p.2.balance, nonce := p.2.nonce, code_hash := B256.keccakEmpty
          code := if p.2.code = [] then none else some p.2.code }).2 := by
  unfold loadStep
  rw [foldl_contracts_invariant
    (fun db (kv : Nat × Nat) =>
      { db with accounts := mupdate db.accounts p.1 DbAccount.default fun a =>
          { a with storage := minsert a.storage kv.1 kv.2 } })
    (fun db b => rfl)]
  rfl

theorem loadStep_contracts_mono (db : InMemoryDb) (p : Nat × SnapShotAccountRecord)
    (h : B256) (c : List Nat) (hc : mfind? db.contracts h = some c) :
    mfind? ((loadStep db p).contracts) h = some c := by
  rw [loadStep_contracts]
  exact insert_contract_preserves _ _ _ _ hc

theorem loadFold_contracts_mono (L : List (Nat × SnapShotAccountRecord))
    (db0 : InMemoryDb) (h : B256) (c : List Nat)
    (hc : mfind? db0.contracts h = some c) :
    mfind? ((loadFold L db0).contracts) h = some c := by
  induction L generalizing db0 with
  | nil => exact hc
  | cons p t ih => exact ih _ (loadStep_contracts_mono _ _ _ _ hc)

theorem loadStep_keccakSound (db : InMemoryDb) (p : Nat × SnapShotAccountRecord)
    (hs : KeccakSound db.contracts) : KeccakSound ((loadStep db p).contracts) := by
  rw [loadStep_contracts, insert_contract_load_contracts]
  by_cases hc : p.2.code = []
  · simpa [hc] using hs
  · rw [if_neg hc]
    cases hfind : mfind? db.contracts (B256.keccak p.2.code) with
    | some v => exact hs
    | none =>
        dsimp only
        intro c
        by_cases he : B256.keccak p.2.code = B256.keccak c
        · have hcc : p.2.code = c := by injection he
          subst hcc
          rw [mfind?_minsert_self]
          exact Or.inr rfl
        · rw [mfind?_minsert_other _ _ _ _ he]
          exact hs c

theorem loadStep_keccak_present (db : InMemoryDb) (p : Nat × SnapShotAccountRecord)
    (hs : KeccakSound db.contracts) (hc : p.2.code ≠ []) :
    mfind? ((loadStep db p).contracts) (B256.keccak p.2.code) = some p.2.code := by
  rw [loadStep_contracts, insert_contract_load_contracts, if_neg hc]
  cases hfind : mfind? db.contracts (B256.keccak p.2.code) with
  | some v =>
      dsimp only
      rcases hs p.2.code with h0 | h0
      · rw [h0] at hfind
        cases hfind
      · exact h0
  | none =>
      dsimp only
      exact mfind?_minsert_self _ _ _

/-- Every nonempty code of an imported account ends up registered in the
code table under its recomputed hash. -/
theorem loadFold_keccak_present (L : List (Nat × SnapShotAccountRecord))
    (db0 : InMemoryDb) (hs : KeccakSound db0.contracts)
    (p : Nat × SnapShotAccountRecord) (hmem : p ∈ L) (hc : p.2.code ≠ []) :
    mfind? ((loadFold L db0).contracts) (B256.keccak p.2.code) = some p.2.code := by
  induction L generalizing db0 with
  | nil => cases hmem
  | cons q t ih =>
      have hfold : loadFold (q :: t) db0 = loadFold t (loadStep db0 q) := rfl
      rw [hfold]
      rcases List.mem_cons.mp hmem with hq | ht
      · subst hq
        exact loadFold_contracts_mono t _ _ _ (loadStep_keccak_present db0 p hs hc)
      · exact ih _ (loadStep_keccakSound db0 q hs) ht

/-! ### Snapshot export lemmas -/

theorem mfind?_mem {κ α : Type} [DecidableEq κ] (l : List (κ × α)) (k : κ) (v : α)
    (h : mfind? l k = some v) : (k, v) ∈ l := by
  induction l with
  | nil => cases h
  | cons p t ih =>
      by_cases hp : p.1 = k
      · simp only [mfind?, if_pos hp] at h
        injection h with hv
        have hpk : p = (k, v) := by
          rw [← hp, ← hv]
        rw [hpk] at *
        exact List.mem_cons_self _ _
      · simp only [mfind?, if_neg hp] at h
        exact List.mem_cons_of_mem _ (ih h)

theorem mfind?_foldStorage (L : List (Nat × Nat)) (s : Nat)
    (hnd : (L.map Prod.fst).Nodup) :
    mfind? (foldStorage L) s = mfind? L s := by
  unfold foldStorage
  rw [mfind?_foldl_minsert (fun v : Nat => v) L [] s hnd]
  cases mfind? L s with
  | some v => rfl
  | none => rfl

theorem resolvedCode_eq (db : InMemoryDb) (acc : DbAccount) (cbytes : List Nat)
    (hcb : mfind? db.contracts acc.info.code_hash = some cbytes)
    (hcode : acc.info.code = none ∨ acc.info.code = some cbytes) :
    resolvedCode db acc = cbytes := by
  unfold resolvedCode
  rcases hcode with h | h
  · rw [h, hcb]
    rfl
  · rw [h]

/-- Snapshot collection succeeds and produces exactly the per-account
records whenever every account's code resolves. -/
theorem collectSnapShotAccounts_ok (db : InMemoryDb) (l : List (Nat × DbAccount))
    (h : ∀ p ∈ l, ∃ cbytes, mfind? db.contracts p.2.info.code_hash = some cbytes ∧
      (p.2.info.code = none ∨ p.2.info.code = some cbytes)) :
    collectSnapShotAccounts db l =
      Except.ok (l.map (fun p => (p.1, mkSnapShotRecord db p.2))) := by
  induction l with
  | nil => rfl
  | cons p t ih =>
      obtain ⟨cbytes, hcb, hcode⟩ := h p (List.mem_cons_self _ _)
      have htail := ih (fun q hq => h q (List.mem_cons_of_mem _ hq))
      have hres := resolvedCode_eq db p.2 cbytes hcb hcode
      rcases hcode with hnone | hsome
      · simp [collectSnapShotAccounts, hnone, InMemoryDb.code_by_hash, hcb, htail,
          mkSnapShotRecord, hres, resolvedCode]
      · simp [collectSnapShotAccounts, hsome, htail, mkSnapShotRecord, hres, resolvedCode]

theorem basic_fst (db : InMemoryDb) (A : Nat) (acc : DbAccount)
    (h : mfind? db.accounts A = some acc) : (db.basic A).1 = acc.infoOpt := by
  unfold InMemoryDb.basic
  rw [h]

theorem basic_fst_none (db : InMemoryDb) (A : Nat)
    (h : mfind? db.accounts A = none) : (db.basic A).1 = none := by
  unfold InMemoryDb.basic
  rw [h]
  rfl

theorem storage_of_lookup (db : InMemoryDb) (A s : Nat) (acc : DbAccount)
    (h : mfind? db.accounts A = some acc) :
    db.storage A s =
      match mfind? acc.storage s with
      | some v => Except.ok v
      | none =>
          if acc.account_state = AccountState.storageCleared ∨
             acc.account_state = AccountState.notExisting then Except.ok 0
          else Except.error (DatabaseError.GetStorage A s) := by
  unfold InMemoryDb.storage
  rw [h]

theorem storage_of_lookup_none (db : InMemoryDb) (A s : Nat)
    (h : mfind? db.accounts A = none) :
    db.storage A s = Except.error (DatabaseError.GetAccount A) := by
  unfold InMemoryDb.storage
  rw [h]

theorem map_keys_eq {κ α β : Type} (l : List (κ × α)) (g : α → β) :
    (l.map (fun p => (p.1, g p.2))).map Prod.fst = l.map Prod.fst := by
  induction l with
  | nil => rfl
  | cons p t ih => simp [ih]

theorem partialEq_true_of (a b : AccountInfo) (h1 : a.balance = b.balance)
    (h2 : a.nonce = b.nonce) (h3 : a.code_hash = b.code_hash) :
    AccountInfo.partialEq a b = true := by
  simp [AccountInfo.partialEq, h1, h2, h3]

theorem keccakSound_default : KeccakSound InMemoryDb.default.contracts := by
  intro c
  left
  simp [InMemoryDb.default, mfind?]

theorem create_snapshot_ok (db : InMemoryDb)
    (h : ∀ p ∈ db.accounts, ∃ cbytes,
      mfind? db.contracts p.2.info.code_hash = some cbytes ∧
      (p.2.info.code = none ∨ p.2.info.code = some cbytes)) :
    db.create_snapshot = Except.ok
      { source := SnapShotSource.memory
        block_num := db.block_number
        accounts := db.accounts.map (fun p => (p.1, mkSnapShotRecord db p.2)) } := by
  unfold InMemoryDb.create_snapshot
  rw [collectSnapShotAccounts_ok db db.accounts h]

/-! ### Claim theorems -/

/-- C1: once a first `basic(A)` call on the fork backend has inserted an
entry for A into the account store (from a successful fetch or the
failure sentinel), the entry persists through every later operation, and
every subsequent `basic(A)` call returns the cached account value
(the record's info), leaves the state unchanged and performs zero bridge
invocations, whatever the bridge oracle then is. -/
theorem forkdb_basic_no_duplicate_fetch (f g : Fetcher) (db0 : ForkDb) (A : Nat)
    (ops : List ForkOp) :
    ∃ acc : DbAccount,
      mfind? (((ForkDb.basic f db0 A).2.1.runOps ops).accounts) A = some acc ∧
      ForkDb.basic g ((ForkDb.basic f db0 A).2.1.runOps ops) A =
        (acc.infoOpt, (ForkDb.basic f db0 A).2.1.runOps ops, 0) := by
  have h1 : (mfind? (ForkDb.basic f db0 A).2.1.accounts A).isSome := by
    unfold ForkDb.basic
    cases hfind : mfind? db0.accounts A with
    | some acc => simp [hfind]
    | none => simp [hfind, mfind?_minsert_self]
  have h2 := ForkDb.runOps_accounts_isSome _ ops A h1
  obtain ⟨acc, hacc⟩ := Option.isSome_iff_exists.mp h2
  refine ⟨acc, hacc, ?_⟩
  generalize hdb2 : (ForkDb.basic f db0 A).2.1.runOps ops = db2 at hacc ⊢
  unfold ForkDb.basic
  simp [hacc]

/-- C3: on an account whose cache state is StorageCleared or NotExisting,
a storage read of any uncached slot returns zero on both backends, and on
the fork backend the bridge is not invoked and the state is unchanged. -/
theorem storage_zero_default_after_clear (db : InMemoryDb) (fdb : ForkDb) (g : Fetcher)
    (A s : Nat) (acc facc : DbAccount)
    (hm : mfind? db.accounts A = some acc)
    (hst : acc.account_state = AccountState.storageCleared ∨
           acc.account_state = AccountState.notExisting)
    (hslot : mfind? acc.storage s = none)
    (hfm : mfind? fdb.accounts A = some facc)
    (hfst : facc.account_state = AccountState.storageCleared ∨
            facc.account_state = AccountState.notExisting)
    (hfslot : mfind? facc.storage s = none) :
    db.storage A s = Except.ok 0 ∧
    ForkDb.storage g fdb A s = (Except.ok 0, fdb, 0) := by
  constructor
  · unfold InMemoryDb.storage
    simp [hm, hslot, hst]
  · unfold ForkDb.storage
    simp [hfm, hfslot, hfst]

/-- Witness for C3 at a concrete store. -/
theorem storage_zero_default_after_clear_witness :
    (mfind? [(5, DbAccount.new_not_existing)] 5 = some DbAccount.new_not_existing) ∧
    ({ InMemoryDb.default with accounts := [(5, DbAccount.new_not_existing)] }.storage 5 9 =
      Except.ok 0 ∧
     ForkDb.storage fetchNone
       { ForkDb.new 0 with accounts := [(5, DbAccount.new_not_existing)] } 5 9 =
       (Except.ok 0, { ForkDb.new 0 with accounts := [(5, DbAccount.new_not_existing)] }, 0)) :=
  ⟨by decide,
   storage_zero_default_after_clear
     { InMemoryDb.default with accounts := [(5, DbAccount.new_not_existing)] }
     { ForkDb.new 0 with accounts := [(5, DbAccount.new_not_existing)] }
     fetchNone 5 9 DbAccount.new_not_existing DbAccount.new_not_existing
     (by decide) (by decide) (by decide) (by decide) (by decide) (by decide)⟩

/-- C5: a `basic(A)` call on the fork backend for an address absent from
the store performs exactly one bridge invocation; on success the fetched
info is inserted with the default "Fresh" state and returned; on failure
no error is surfaced: the NotExisting sentinel is inserted and a
non-existent account (None) is returned, and afterwards both basic and
every storage slot of A read as empty/zero with no further bridge
contact. -/
theorem forkdb_basic_miss_fetch_once (f : Fetcher) (db : ForkDb) (A : Nat)
    (habs : mfind? db.accounts A = none) :
    (ForkDb.basic f db A).2.2 = 1 ∧
    (∀ i, fetch_basic_from_fork f db.block_number A = some i →
      (ForkDb.basic f db A).1 = some i ∧
      mfind? (ForkDb.basic f db A).2.1.accounts A =
        some { info := i, account_state := AccountState.nought, storage := [] }) ∧
    (fetch_basic_from_fork f db.block_number A = none →
      (ForkDb.basic f db A).1 = none ∧
      mfind? (ForkDb.basic f db A).2.1.accounts A = some DbAccount.new_not_existing ∧
      (∀ g : Fetcher,
        ForkDb.basic g (ForkDb.basic f db A).2.1 A =
          (none, (ForkDb.basic f db A).2.1, 0) ∧
        ∀ s, ForkDb.storage g (ForkDb.basic f db A).2.1 A s =
          (Except.ok 0, (ForkDb.basic f db A).2.1, 0))) := by
  refine ⟨?_, ?_, ?_⟩
  · unfold ForkDb.basic
    simp [habs]
  · intro i hi
    unfold ForkDb.basic
    simp [habs, hi, mfind?_minsert_self, DbAccount.default, DbAccount.infoOpt]
  · intro hi
    have hmem : mfind? (ForkDb.basic f db A).2.1.accounts A = some DbAccount.new_not_existing := by
      unfold ForkDb.basic
      simp [habs, hi, mfind?_minsert_self]
    refine ⟨?_, hmem, ?_⟩
    · unfold ForkDb.basic
      simp [habs, hi, DbAccount.new_not_existing, DbAccount.default, DbAccount.infoOpt]
    · intro g
      generalize hdb1 : (ForkDb.basic f db A).2.1 = db1 at hmem ⊢
      constructor
      · unfold ForkDb.basic
        simp [hmem, DbAccount.new_not_existing, DbAccount.default, DbAccount.infoOpt]
      · intro s
        unfold ForkDb.storage
        simp [hmem, DbAccount.new_not_existing, DbAccount.default, mfind?]

/-- Witness for C5: a miss against a failing bridge at a concrete input. -/
theorem forkdb_basic_miss_fetch_once_witness :
    (mfind? (ForkDb.new 0).accounts 4 = none) ∧
    (ForkDb.basic fetchNone (ForkDb.new 0) 4).2.2 = 1 :=
  ⟨by decide, (forkdb_basic_miss_fetch_once fetchNone (ForkDb.new 0) 4 (by decide)).1⟩

/-- C9: both backends start with the two reserved code entries (empty-code
hash and all-zero sentinel, both mapping to empty bytecode), every
reachable state keeps them, and insert-if-absent registration never
changes a mapping already present (re-insertion is a no-op). -/
theorem reserved_code_entries_invariant :
    (∀ ops : List MemOp,
      hasReservedCode (InMemoryDb.runOps InMemoryDb.default ops).contracts) ∧
    (∀ (bn : Nat) (ops : List ForkOp),
      hasReservedCode (ForkDb.runOps (ForkDb.new bn) ops).contracts) ∧
    (∀ (contracts : List (B256 × List Nat)) (info : AccountInfo) (h : B256),
      mfind? (insert_contract contracts info).2 h = mfind? contracts h ∨
      mfind? contracts h = none) := by
  refine ⟨?_, ?_, ?_⟩
  · intro ops
    exact ⟨mem_runOps_contracts_preserves _ _ _ _ rfl,
           mem_runOps_contracts_preserves _ _ _ _ rfl⟩
  · intro bn ops
    exact ⟨fork_runOps_contracts_preserves _ _ _ _ rfl,
           fork_runOps_contracts_preserves _ _ _ _ rfl⟩
  · intro contracts info h
    cases hc : mfind? contracts h with
    | none => exact Or.inr rfl
    | some c =>
        exact Or.inl (insert_contract_preserves _ _ _ _ hc)

/-- C10: commit leaves the record of any address all of whose batch
entries are untouched exactly as it was, on both backends. -/
theorem commit_untouched_frame (db : InMemoryDb) (fdb : ForkDb) (X : Nat)
    (changes : List (Nat × Account))
    (h : ∀ acct, (X, acct) ∈ changes → acct.is_touched = false) :
    mfind? (db.commit changes).accounts X = mfind? db.accounts X ∧
    mfind? (fdb.commit changes).accounts X = mfind? fdb.accounts X := by
  constructor
  · rw [mem_commit_eq]
    exact commitList_lookup_untouched _ _ _ h
  · rw [fork_commit_eq]
    exact commitList_lookup_untouched _ _ _ h

/-- Witness for C10: a concrete untouched batch entry is skipped. -/
theorem commit_untouched_frame_witness :
    mfind? (InMemoryDb.default.commit
      [(3, { info := AccountInfo.default, storage := []
             is_touched := false, is_selfdestructed := false
             is_created := false : Account })]).accounts 3 =
      mfind? InMemoryDb.default.accounts 3 :=
  (commit_untouched_frame InMemoryDb.default (ForkDb.new 0) 3 _
    (fun acct hm => by
      have h2 : acct = { info := AccountInfo.default, storage := []
                         is_touched := false, is_selfdestructed := false
                         is_created := false : Account } :=
        congrArg Prod.snd (List.mem_singleton.mp hm)
      rw [h2])).1

/-- C8 counterexample: on the in-memory backend, `basic` on a miss does
mutate the store: starting from the default (empty) store, a lookup of
address 1 returns a non-existent account but inserts a NotExisting
sentinel record for address 1, so the store is changed. -/
theorem memdb_basic_miss_mutates :
    (InMemoryDb.basic InMemoryDb.default 1).1 = none ∧
    (InMemoryDb.basic InMemoryDb.default 1).2 ≠ InMemoryDb.default ∧
    mfind? (InMemoryDb.basic InMemoryDb.default 1).2.accounts 1 =
      some DbAccount.new_not_existing := by
  decide

/-- C8 amended: on the in-memory backend, `basic(A)` on a miss returns a
non-existent account (None) and inserts a NotExisting sentinel record for
A; every other account record and every other field of the store is left
unchanged. -/
theorem memdb_basic_miss_inserts_sentinel (db : InMemoryDb) (A : Nat)
    (habs : mfind? db.accounts A = none) :
    InMemoryDb.basic db A =
      (none, { db with accounts := minsert db.accounts A DbAccount.new_not_existing }) ∧
    (∀ X, X ≠ A →
      mfind? (InMemoryDb.basic db A).2.accounts X = mfind? db.accounts X) ∧
    (InMemoryDb.basic db A).2.contracts = db.contracts ∧
    (InMemoryDb.basic db A).2.logs = db.logs ∧
    (InMemoryDb.basic db A).2.block_number = db.block_number ∧
    (InMemoryDb.basic db A).2.block_hashes = db.block_hashes := by
  have hb : InMemoryDb.basic db A =
      (none, { db with accounts := minsert db.accounts A DbAccount.new_not_existing }) := by
    unfold InMemoryDb.basic
    simp [habs, DbAccount.new_not_existing, DbAccount.default, DbAccount.infoOpt]
  refine ⟨hb, ?_, ?_, ?_, ?_, ?_⟩
  · intro X hX
    rw [hb]
    exact mfind?_minsert_other _ _ _ _ (fun e => hX e.symm)
  · rw [hb]
  · rw [hb]
  · rw [hb]
  · rw [hb]

/-- Witness for the amended C8 at the default store. -/
theorem memdb_basic_miss_inserts_sentinel_witness :
    (mfind? InMemoryDb.default.accounts 1 = none) ∧
    InMemoryDb.basic InMemoryDb.default 1 =
      (none, { InMemoryDb.default with
               accounts := minsert InMemoryDb.default.accounts 1 DbAccount.new_not_existing }) :=
  ⟨by decide, (memdb_basic_miss_inserts_sentinel InMemoryDb.default 1 (by decide)).1⟩

/-- C2: committing a batch whose entry for a present account A is touched
and self-destructed leaves A with empty storage, default info and the
NotExisting state on both backends; afterwards every storage slot of A
reads zero and basic reports a non-existent account, with zero bridge
invocations on the fork backend. -/
theorem commit_selfdestruct_clears (db : InMemoryDb) (fdb : ForkDb) (g : Fetcher)
    (A : Nat) (changes : List (Nat × Account)) (acct : Account)
    (hmem : (A, acct) ∈ changes) (hnd : (changes.map Prod.fst).Nodup)
    (ht : acct.is_touched = true) (hsd : acct.is_selfdestructed = true)
    (hpres : (mfind? db.accounts A).isSome) (hpresF : (mfind? fdb.accounts A).isSome) :
    mfind? (db.commit changes).accounts A =
      some { info := AccountInfo.default
             account_state := AccountState.notExisting
             storage := [] } ∧
    mfind? (fdb.commit changes).accounts A =
      some { info := AccountInfo.default
             account_state := AccountState.notExisting
             storage := [] } ∧
    (∀ s, (db.commit changes).storage A s = Except.ok 0) ∧
    (∀ s, ForkDb.storage g (fdb.commit changes) A s =
      (Except.ok 0, fdb.commit changes, 0)) ∧
    (db.commit changes).basic A = (none, db.commit changes) ∧
    ForkDb.basic g (fdb.commit changes) A = (none, fdb.commit changes, 0) := by
  have hm : mfind? (db.commit changes).accounts A =
      some { info := AccountInfo.default
             account_state := AccountState.notExisting
             storage := [] } := by
    rw [mem_commit_eq]
    exact commitList_lookup_selfdestruct _ _ _ _ hmem hnd ht hsd
  have hf : mfind? (fdb.commit changes).accounts A =
      some { info := AccountInfo.default
             account_state := AccountState.notExisting
             storage := [] } := by
    rw [fork_commit_eq]
    exact commitList_lookup_selfdestruct _ _ _ _ hmem hnd ht hsd
  refine ⟨hm, hf, ?_, ?_, ?_, ?_⟩
  · intro s
    unfold InMemoryDb.storage
    simp [hm, mfind?]
  · intro s
    generalize hdb2 : fdb.commit changes = db2 at hf ⊢
    unfold ForkDb.storage
    simp [hf, mfind?]
  · unfold InMemoryDb.basic
    simp [hm, DbAccount.infoOpt]
  · generalize hdb2 : fdb.commit changes = db2 at hf ⊢
    unfold ForkDb.basic
    simp [hf, DbAccount.infoOpt]

/-- Witness for C2: one concrete self-destructed account with slot 1 = 5. -/
theorem commit_selfdestruct_clears_witness :
    ((2, { info := AccountInfo.default, storage := []
           is_touched := true, is_selfdestructed := true
           is_created := false : Account }) ∈
       [(2, { info := AccountInfo.default, storage := []
              is_touched := true, is_selfdestructed := true
              is_created := false : Account })]) ∧
    (∀ s, ({ InMemoryDb.default with
             accounts := [(2, { info := AccountInfo.default
                                account_state := AccountState.touched
                                storage := [(1, 5)] })] }.commit
      [(2, { info := AccountInfo.default, storage := []
             is_touched := true, is_selfdestructed := true
             is_created := false : Account })]).storage 2 s = Except.ok 0) :=
  ⟨List.mem_singleton.mpr rfl,
   (commit_selfdestruct_clears
     { InMemoryDb.default with
       accounts := [(2, { info := AccountInfo.default
                          account_state := AccountState.touched
                          storage := [(1, 5)] })] }
     { ForkDb.new 0 with
       accounts := [(2, { info := AccountInfo.default
                          account_state := AccountState.touched
                          storage := [(1, 5)] })] }
     fetchNone 2 _ _ (List.mem_singleton.mpr rfl) (by decide) rfl rfl
     (by decide) (by decide)).2.2.1⟩

/-- C4: committing a batch entry for B that is touched, newly created and
not self-destructed discards any storage B held before the commit: B ends
in state StorageCleared and its storage map answers exactly the slots
written by the batch, each at its present (final) value, on both
backends. -/
theorem commit_created_isolates_storage (db : InMemoryDb) (fdb : ForkDb)
    (B : Nat) (changes : List (Nat × Account)) (acct : Account)
    (hmem : (B, acct) ∈ changes) (hnd : (changes.map Prod.fst).Nodup)
    (ht : acct.is_touched = true) (hsd : acct.is_selfdestructed = false)
    (hcr : acct.is_created = true) (hw : (acct.storage.map Prod.fst).Nodup) :
    (∃ i st, mfind? (db.commit changes).accounts B =
        some { info := i, account_state := AccountState.storageCleared, storage := st } ∧
      ∀ s, mfind? st s = Option.map EvmStorageSlot.present_value (mfind? acct.storage s)) ∧
    (∃ i st, mfind? (fdb.commit changes).accounts B =
        some { info := i, account_state := AccountState.storageCleared, storage := st } ∧
      ∀ s, mfind? st s = Option.map EvmStorageSlot.present_value (mfind? acct.storage s)) := by
  have hfold : ∀ s : Nat,
      mfind? (acct.storage.foldl (fun m kv => minsert m kv.1 kv.2.present_value) []) s =
        Option.map EvmStorageSlot.present_value (mfind? acct.storage s) := by
    intro s
    rw [mfind?_foldl_minsert EvmStorageSlot.present_value acct.storage [] s hw]
    cases mfind? acct.storage s with
    | some b => rfl
    | none => rfl
  constructor
  · rw [mem_commit_eq]
    obtain ⟨i, hi⟩ := commitList_lookup_created changes
      (db.accounts, db.contracts) B acct hmem hnd ht hsd hcr
    exact ⟨i, _, hi, hfold⟩
  · rw [fork_commit_eq]
    obtain ⟨i, hi⟩ := commitList_lookup_created changes
      (fdb.accounts, fdb.contracts) B acct hmem hnd ht hsd hcr
    exact ⟨i, _, hi, hfold⟩

/-- Witness for C4: B previously held slot 7 = 3, the batch creates B with
slot 7 present-value 9; after commit the slot reads 9. -/
theorem commit_created_isolates_storage_witness :
    ((6, { info := AccountInfo.default
           storage := [(7, { original_value := 0, present_value := 9 })]
           is_touched := true, is_selfdestructed := false
           is_created := true : Account }) ∈
      [(6, { info := AccountInfo.default
             storage := [(7, { original_value := 0, present_value := 9 })]
             is_touched := true, is_selfdestructed := false
             is_created := true : Account })]) ∧
    (∃ i st, mfind? ({ InMemoryDb.default with
        accounts := [(6, { info := AccountInfo.default
                           account_state := AccountState.touched
                           storage := [(7, 3)] })] }.commit
      [(6, { info := AccountInfo.default
             storage := [(7, { original_value := 0, present_value := 9 })]
             is_touched := true, is_selfdestructed := false
             is_created := true : Account })]).accounts 6 =
        some { info := i, account_state := AccountState.storageCleared, storage := st } ∧
      ∀ s, mfind? st s = Option.map EvmStorageSlot.present_value
        (mfind? [(7, { original_value := 0, present_value := 9 : EvmStorageSlot })] s)) :=
  ⟨List.mem_singleton.mpr rfl,
   (commit_created_isolates_storage
     { InMemoryDb.default with
       accounts := [(6, { info := AccountInfo.default
                          account_state := AccountState.touched
                          storage := [(7, 3)] })] }
     (ForkDb.new 0) 6 _ _ (List.mem_singleton.mpr rfl) (by decide) rfl rfl rfl
     (by decide)).1⟩

/-- C7 counterexample: importing a snapshot holding account 1 with storage
slot 2 = 9 into a fresh backend leaves account 1 in the default None
cache state, not StorageCleared, and a read of the unlisted slot 3
returns a GetStorage error, not zero. -/
theorem load_snapshot_not_storage_cleared :
    Option.map DbAccount.account_state
      ((mfind? (load_snapshot InMemoryDb.default
        { source := SnapShotSource.memory
          block_num := 7
          accounts := [(1, { nonce := 0, balance := 5, code := [], storage := [(2, 9)] })] }).accounts 1)) =
      some AccountState.nought ∧
    Option.map DbAccount.account_state
      ((mfind? (load_snapshot InMemoryDb.default
        { source := SnapShotSource.memory
          block_num := 7
          accounts := [(1, { nonce := 0, balance := 5, code := [], storage := [(2, 9)] })] }).accounts 1)) ≠
      some AccountState.storageCleared ∧
    (load_snapshot InMemoryDb.default
        { source := SnapShotSource.memory
          block_num := 7
          accounts := [(1, { nonce := 0, balance := 5, code := [], storage := [(2, 9)] })] }).storage 1 3 =
      Except.error (DatabaseError.GetStorage 1 3) := by
  refine ⟨rfl, by decide, rfl⟩

/-- C7 amended: importing a snapshot into a fresh backend gives every
imported account the default None ("Fresh") cache state — load_snapshot
never marks StorageCleared — with exactly the snapshot storage slots; a
subsequent read of a slot not listed in the snapshot therefore returns a
GetStorage error on the in-memory backend, not zero. -/
theorem load_snapshot_default_cache_state (snapshot : SnapShot)
    (hnd : (snapshot.accounts.map Prod.fst).Nodup)
    (p : Nat × SnapShotAccountRecord) (hmem : p ∈ snapshot.accounts)
    (hstnd : (p.2.storage.map Prod.fst).Nodup) :
    mfind? ((load_snapshot InMemoryDb.default snapshot).accounts) p.1 =
      some { info := loadInfo p.2
             account_state := AccountState.nought
             storage := foldStorage p.2.storage } ∧
    (∀ s, mfind? p.2.storage s = none →
      (load_snapshot InMemoryDb.default snapshot).storage p.1 s =
        Except.error (DatabaseError.GetStorage p.1 s)) := by
  have hdisj : ∀ q ∈ snapshot.accounts,
      mfind? ((InMemoryDb.default.set_blocknumber snapshot.block_num).accounts) q.1 = none :=
    fun q _ => rfl
  have hL : mfind? snapshot.accounts p.1 = some p.2 := by
    have hp : (p.1, p.2) ∈ snapshot.accounts := by
      cases p
      exact hmem
    exact mem_nodup_mfind? _ _ _ hp hnd
  have hlook : mfind? ((load_snapshot InMemoryDb.default snapshot).accounts) p.1 =
      some { info := loadInfo p.2
             account_state := AccountState.nought
             storage := foldStorage p.2.storage } := by
    rw [load_snapshot_eq, loadFold_lookup snapshot.accounts _ p.1 hnd hdisj, hL]
  refine ⟨hlook, ?_⟩
  intro s hs
  unfold InMemoryDb.storage
  rw [hlook]
  have hfs : mfind? (foldStorage p.2.storage) s = none := by
    rw [mfind?_foldStorage _ _ hstnd, hs]
  simp [hfs]

/-- Witness for the amended C7 at a concrete snapshot. -/
theorem load_snapshot_default_cache_state_witness :
    ((1, { nonce := 0, balance := 5, code := [], storage := [(2, 9)]
           : SnapShotAccountRecord }) ∈
      ([(1, { nonce := 0, balance := 5, code := [], storage := [(2, 9)]
              : SnapShotAccountRecord })])) ∧
    mfind? ((load_snapshot InMemoryDb.default
      { source := SnapShotSource.memory
        block_num := 7
        accounts := [(1, { nonce := 0, balance := 5, code := [], storage := [(2, 9)] })] }).accounts) 1 =
      some { info := loadInfo { nonce := 0, balance := 5, code := [], storage := [(2, 9)] }
             account_state := AccountState.nought
             storage := foldStorage [(2, 9)] } :=
  ⟨List.mem_singleton.mpr rfl,
   (load_snapshot_default_cache_state
     { source := SnapShotSource.memory
       block_num := 7
       accounts := [(1, { nonce := 0, balance := 5, code := [], storage := [(2, 9)] })] }
     (by decide) _ (List.mem_singleton.mpr rfl) (by decide)).1⟩

/-- C6 counterexample: a store whose only account is StorageCleared with
empty storage snapshots successfully, but the reloaded store disagrees on
a storage lookup: the original answers zero for slot 0 while the import
answers a GetStorage error, because the import resets the cache state. -/
theorem snapshot_round_trip_cex :
    InMemoryDb.create_snapshot
      { InMemoryDb.default with
        accounts := [(1, { info := AccountInfo.default
                           account_state := AccountState.storageCleared
                           storage := [] })] } =
      Except.ok { source := SnapShotSource.memory
                  block_num := 0
                  accounts := [(1, { nonce := 0, balance := 0, code := [], storage := [] })] } ∧
    InMemoryDb.storage
      { InMemoryDb.default with
        accounts := [(1, { info := AccountInfo.default
                           account_state := AccountState.storageCleared
                           storage := [] })] } 1 0 = Except.ok 0 ∧
    InMemoryDb.storage
      (load_snapshot InMemoryDb.default
        { source := SnapShotSource.memory
          block_num := 0
          accounts := [(1, { nonce := 0, balance := 0, code := [], storage := [] })] }) 1 0 =
      Except.error (DatabaseError.GetStorage 1 0) :=
  ⟨rfl, rfl, rfl⟩

/-- C6 amended: for a store whose accounts all have cache state Touched
or None, pairwise distinct storage keys, and a consistent registered code
hash, loading the snapshot produced by create_snapshot into a fresh
backend preserves every lookup: basic answers are equal account infos
(equality as revm compares AccountInfo: balance, nonce and code hash),
storage answers are identical, and every account's code hash resolves to
the same bytecode.  For StorageCleared or NotExisting accounts the
round trip does not preserve lookups, since the import resets the cache
state to the default (see the counterexample). -/
theorem snapshot_round_trip (db : InMemoryDb) (hwf : WellFormed db) :
    ∃ snap, db.create_snapshot = Except.ok snap ∧
      (∀ A, optInfoEq (db.basic A).1
        ((load_snapshot InMemoryDb.default snap).basic A).1 = true) ∧
      (∀ A s, (load_snapshot InMemoryDb.default snap).storage A s = db.storage A s) ∧
      (∀ p ∈ db.accounts,
        (load_snapshot InMemoryDb.default snap).code_by_hash p.2.info.code_hash =
          db.code_by_hash p.2.info.code_hash) := by
  obtain ⟨hnd, hacc⟩ := hwf
  have hndL : ((db.accounts.map (fun p => (p.1, mkSnapShotRecord db p.2))).map Prod.fst).Nodup := by
    rw [map_keys_eq]
    exact hnd
  have hlookup : ∀ A,
      mfind? ((load_snapshot InMemoryDb.default
        { source := SnapShotSource.memory
          block_num := db.block_number
          accounts := db.accounts.map (fun p => (p.1, mkSnapShotRecord db p.2)) }).accounts) A =
      Option.map (fun acc : DbAccount =>
        { info := loadInfo (mkSnapShotRecord db acc)
          account_state := AccountState.nought
          storage := foldStorage acc.storage }) (mfind? db.accounts A) := by
    intro A
    rw [load_snapshot_eq]
    dsimp only
    rw [loadFold_lookup (db.accounts.map (fun p => (p.1, mkSnapShotRecord db p.2)))
      (InMemoryDb.default.set_blocknumber db.block_number) A hndL (fun q _ => rfl)]
    rw [mfind?_map_snd]
    cases mfind? db.accounts A with
    | none => rfl
    | some acc => rfl
  refine ⟨{ source := SnapShotSource.memory
            block_num := db.block_number
            accounts := db.accounts.map (fun p => (p.1, mkSnapShotRecord db p.2)) },
          create_snapshot_ok db
            (fun p hp => Exists.imp (fun cb h => ⟨h.1, h.2.1⟩) (hacc p hp).2.2),
          ?_, ?_, ?_⟩
  · intro A
    cases hA : mfind? db.accounts A with
    | none =>
        rw [basic_fst_none db A hA,
            basic_fst_none _ A (by rw [hlookup A, hA]; rfl)]
        rfl
    | some acc =>
        have hwfa : WellFormedAccount db acc := hacc (A, acc) (mfind?_mem _ _ _ hA)
        obtain ⟨hstate, hstnd, cbytes, hcb, hcode, hhash⟩ := hwfa
        have hne : acc.account_state ≠ AccountState.notExisting := by
          rcases hstate with h | h <;> simp [h]
        have hres : resolvedCode db acc = cbytes := resolvedCode_eq db acc cbytes hcb hcode
        have hhash2 : acc.info.code_hash = hash_slow (resolvedCode db acc) := by
          rw [hres, hhash]
        rw [basic_fst db A acc hA,
            basic_fst _ A { info := loadInfo (mkSnapShotRecord db acc)
                            account_state := AccountState.nought
                            storage := foldStorage acc.storage }
              (by rw [hlookup A, hA]; rfl)]
        rw [show acc.infoOpt = some acc.info from by
          unfold DbAccount.infoOpt
          rw [if_neg hne]]
        exact partialEq_true_of _ _ rfl rfl hhash2
  · intro A s
    cases hA : mfind? db.accounts A with
    | none =>
        rw [storage_of_lookup_none db A s hA,
            storage_of_lookup_none _ A s (by rw [hlookup A, hA]; rfl)]
    | some acc =>
        have hwfa : WellFormedAccount db acc := hacc (A, acc) (mfind?_mem _ _ _ hA)
        obtain ⟨hstate, hstnd, cbytes, hcb, hcode, hhash⟩ := hwfa
        rw [storage_of_lookup db A s acc hA,
            storage_of_lookup _ A s { info := loadInfo (mkSnapShotRecord db acc)
                                      account_state := AccountState.nought
                                      storage := foldStorage acc.storage }
              (by rw [hlookup A, hA]; rfl)]
        rw [show ({ info := loadInfo (mkSnapShotRecord db acc)
                    account_state := AccountState.nought
                    storage := foldStorage acc.storage } : DbAccount).storage =
            foldStorage acc.storage from rfl]
        rw [mfind?_foldStorage _ _ hstnd]
        cases hslot : mfind? acc.storage s with
        | some v => rfl
        | none =>
            rcases hstate with h | h <;> simp [h]
  · intro p hp
    obtain ⟨hstate, hstnd, cbytes, hcb, hcode, hhash⟩ := hacc p hp
    have hres : resolvedCode db p.2 = cbytes := resolvedCode_eq db p.2 cbytes hcb hcode
    have hdb : db.code_by_hash p.2.info.code_hash = Except.ok cbytes := by
      unfold InMemoryDb.code_by_hash
      rw [hcb]
    rw [hdb, load_snapshot_eq]
    dsimp only
    by_cases hce : cbytes = []
    · have hk : p.2.info.code_hash = B256.keccakEmpty := by
        rw [hhash, hce]
        rfl
      have hm : mfind? ((loadFold
          (db.accounts.map (fun p => (p.1, mkSnapShotRecord db p.2)))
          (InMemoryDb.default.set_blocknumber db.block_number)).contracts)
          B256.keccakEmpty = some [] :=
        loadFold_contracts_mono _ _ _ _ rfl
      unfold InMemoryDb.code_by_hash
      rw [hk, hm, hce]
    · have hk : p.2.info.code_hash = B256.keccak cbytes := by
        rw [hhash]
        unfold hash_slow
        rw [if_neg hce]
      have hqmem : (p.1, mkSnapShotRecord db p.2) ∈
          db.accounts.map (fun p => (p.1, mkSnapShotRecord db p.2)) :=
        List.mem_map_of_mem _ hp
      have hqc : (mkSnapShotRecord db p.2).code = cbytes := hres
      have hm := loadFold_keccak_present
        (db.accounts.map (fun p => (p.1, mkSnapShotRecord db p.2)))
        (InMemoryDb.default.set_blocknumber db.block_number)
        keccakSound_default (p.1, mkSnapShotRecord db p.2) hqmem
        (by rw [show ((p.1, mkSnapShotRecord db p.2) :
            Nat × SnapShotAccountRecord).2.code = cbytes from hqc]; exact hce)
      rw [show ((p.1, mkSnapShotRecord db p.2) :
          Nat × SnapShotAccountRecord).2.code = cbytes from hqc] at hm
      unfold InMemoryDb.code_by_hash
      rw [hk, hm]

/-- Witness for the amended C6: a concrete wellformed one-account store
round-trips with identical storage lookups. -/
theorem snapshot_round_trip_witness :
    ∃ snap, InMemoryDb.create_snapshot
      { InMemoryDb.default with
        accounts := [(1, { info := { balance := 5, nonce := 2
                                     code_hash := B256.keccakEmpty, code := some [] }
                           account_state := AccountState.touched
                           storage := [(4, 6)] })] } = Except.ok snap ∧
      ∀ A s, (load_snapshot InMemoryDb.default snap).storage A s =
        InMemoryDb.storage
          { InMemoryDb.default with
            accounts := [(1, { info := { balance := 5, nonce := 2
                                         code_hash := B256.keccakEmpty, code := some [] }
                               account_state := AccountState.touched
                               storage := [(4, 6)] })] } A s := by
  obtain ⟨snap, h1, h2, h3, h4⟩ := snapshot_round_trip
    { InMemoryDb.default with
      accounts := [(1, { info := { balance := 5, nonce := 2
                                   code_hash := B256.keccakEmpty, code := some [] }
                         account_state := AccountState.touched
                         storage := [(4, 6)] })] }
    ⟨by decide, fun p hp => by
      rw [List.mem_singleton.mp hp]
      exact ⟨Or.inl rfl, by decide, [], by decide, Or.inr rfl, rfl⟩⟩
  exact ⟨snap, h1, h3⟩

end Simular
